import Mathlib

/-!
# poly-relayer: proof composition and keeper-epoch verification

A shallow embedding of `msg/msg.go` (the audit-path decoder and the key
encoders), of `relayer/poly/poly.go` (`CheckEpoch`, `GetPolyParams`,
`ComposeTx`, `MakeTx`), of `relayer/poly/listener.go` (`Scan`, `ScanTx`) and of
`relayer/eth/listener.go` (`getProofHeight`, `getProof`, `ScanTx`).

Conventions.
* A Go `[]byte` is a `List Byte` with `Byte = Fin 256`; a nil slice and an empty
  slice are both `[]`.
* `uint32` / `uint64` values are natural numbers, reduced `% 2^32` / `% 2^64`
  wherever the Go arithmetic can wrap.
* A Go `error` is an `Option String` (`none` is `nil`).
* A Go run-time panic (a failed type assertion, a slice bound, a nil pointer) is
  the field `fault` of a result record.
* Functions of imported libraries and of the relay-chain node are either
  transcribed from the library (the zero-copy reader and writer of
  `polynetwork/poly/common`) or taken as fields of the records `Extern` and
  `Node`; `sampleExtern` and `sampleNode` are small concrete instances on which
  the definitions are evaluated.
-/

namespace PolyRelayer

/-! ## Bytes and the zero-copy reader / writer of `polynetwork/poly/common` -/

/-- One byte of a Go byte slice. -/
abbrev Byte := Fin 256

/-- The byte `n mod 256` (Go conversion `byte(n)`). -/
def byteOf (n : Nat) : Byte := ⟨n % 256, Nat.mod_lt _ (by decide)⟩

/-- The Go slice expression `s[lo:hi]`. -/
def slice (s : List Byte) (lo hi : Nat) : List Byte := (s.take hi).drop lo

/-- Value of a little-endian byte string (`binary.LittleEndian.UintN`). -/
def leNat : List Byte → Nat
  | [] => 0
  | b :: bs => b.val + 256 * leNat bs

/-- The `k` low-order bytes of `n`, little-endian (`binary.LittleEndian.PutUintN`). -/
def leBytes : Nat → Nat → List Byte
  | 0, _ => []
  | k + 1, n => byteOf n :: leBytes k (n / 256)

/-- The library constant `UINT256_SIZE`. -/
def UINT256_SIZE : Nat := 32

/-- The reader `pcom.ZeroCopySource`: the slice being read and the read offset. -/
structure ZeroCopySource where
  s : List Byte
  off : Nat
deriving DecidableEq, Repr

/-- The constructor `pcom.NewZeroCopySource`. -/
def NewZeroCopySource (b : List Byte) : ZeroCopySource := ⟨b, 0⟩

namespace ZeroCopySource

/-- Go `Size()`: length of the whole slice. -/
def Size (self : ZeroCopySource) : Nat := self.s.length

/-- Go `Pos()`: the read offset. -/
def Pos (self : ZeroCopySource) : Nat := self.off

/-- Go `NextBytes(n)`: the next `n` bytes; when fewer remain (or `off + n` overflows
`uint64`) the rest of the slice is returned together with `eof = true`. -/
def NextBytes (self : ZeroCopySource) (n : Nat) : List Byte × Bool × ZeroCopySource :=
  let m := self.s.length
  let overflow := decide (2 ^ 64 ≤ self.off + n)
  let e := (self.off + n) % 2 ^ 64
  if overflow ∨ m < e then
    (slice self.s self.off m, true, { self with off := m })
  else
    (slice self.s self.off e, false, { self with off := e })

/-- Go `NextByte()`: the next byte, or `(0, eof)` at the end of the slice. -/
def NextByte (self : ZeroCopySource) : Byte × Bool × ZeroCopySource :=
  match self.s.get? self.off with
  | none => (0, true, self)
  | some b => (b, false, { self with off := self.off + 1 })

/-- Shared body of `NextUint16`, `NextUint32` and `NextUint64`: `w` bytes,
little-endian; `(0, eof)` when fewer remain. -/
def NextUintLE (self : ZeroCopySource) (w : Nat) : Nat × Bool × ZeroCopySource :=
  match self.NextBytes w with
  | (_, true, src) => (0, true, src)
  | (buf, false, src) => (leNat buf, false, src)

/-- Go `NextUint16()`. -/
def NextUint16 (self : ZeroCopySource) : Nat × Bool × ZeroCopySource := self.NextUintLE 2

/-- Go `NextUint32()`. -/
def NextUint32 (self : ZeroCopySource) : Nat × Bool × ZeroCopySource := self.NextUintLE 4

/-- Go `NextUint64()`. -/
def NextUint64 (self : ZeroCopySource) : Nat × Bool × ZeroCopySource := self.NextUintLE 8

/-- Go `NextVarUint()`: a first byte below `0xFD` is the value itself; `0xFD`, `0xFE`,
`0xFF` announce a 2-, 4- or 8-byte little-endian value. -/
def NextVarUint (self : ZeroCopySource) : Nat × Bool × ZeroCopySource :=
  match self.NextByte with
  | (_, true, src) => (0, true, src)
  | (fb, false, src) =>
    if fb.val = 0xFD then src.NextUint16
    else if fb.val = 0xFE then src.NextUint32
    else if fb.val = 0xFF then src.NextUint64
    else (fb.val, false, src)

/-- Go `NextVarBytes()`: a var-uint count, then that many bytes. -/
def NextVarBytes (self : ZeroCopySource) : List Byte × Bool × ZeroCopySource :=
  match self.NextVarUint with
  | (_, true, src) => ([], true, src)
  | (count, false, src) => src.NextBytes count

/-- Go `NextHash()`: the next 32 bytes as a `Uint256`; the zero hash and `eof` when
fewer remain. -/
def NextHash (self : ZeroCopySource) : List Byte × Bool × ZeroCopySource :=
  match self.NextBytes UINT256_SIZE with
  | (_, true, src) => (List.replicate 32 0, true, src)
  | (buf, false, src) => (buf, false, src)

end ZeroCopySource

/-- Go `ZeroCopySink.WriteVarUint`: the shortest of the four var-uint shapes. -/
def WriteVarUint (data : Nat) : List Byte :=
  if data < 0xFD then [byteOf data]
  else if data ≤ 0xFFFF then 0xFD :: leBytes 2 data
  else if data ≤ 0xFFFFFFFF then 0xFE :: leBytes 4 data
  else 0xFF :: leBytes 8 data

/-- Go `ZeroCopySink.WriteVarBytes`: var-uint length, then the bytes. -/
def WriteVarBytes (data : List Byte) : List Byte := WriteVarUint data.length ++ data

/-- Go `ZeroCopySink.WriteUint64`: eight bytes, little-endian. -/
def WriteUint64 (data : Nat) : List Byte := leBytes 8 data

/-! ## `msg.ParseAuditPath` -/

/-- The four results of `ParseAuditPath`. -/
structure AuditPath where
  value : List Byte
  pos : List Byte
  hashes : List (List Byte)
  err : Option String
deriving DecidableEq, Repr

/-- The `for i := 0; i < size; i++` loop of `ParseAuditPath`, with `k` iterations
left; both `eof` exits are the bare `return` of the source, which hands back the
named results as they stand. -/
def parseAuditLoop : Nat → ZeroCopySource → List Byte → List (List Byte) →
    List Byte × List (List Byte)
  | 0, _, pos, hashes => (pos, hashes)
  | k + 1, source, pos, hashes =>
    match source.NextByte with
    | (_, true, _) => (pos, hashes)
    | (f, false, source1) =>
      match source1.NextHash with
      | (_, true, _) => (pos ++ [f], hashes)
      | (v, false, source2) =>
        parseAuditLoop k source2 (pos ++ [f]) (hashes ++ [slice v 0 32])

/-- Go `ParseAuditPath(path)`: the named result `err` is never assigned. -/
def ParseAuditPath (path : List Byte) : AuditPath :=
  let source := NewZeroCopySource path
  match source.NextVarBytes with
  | (value, true, _) => ⟨value, [], [], none⟩
  | (value, false, source1) =>
    let size := (source1.Size - source1.Pos) / UINT256_SIZE
    let r := parseAuditLoop size source1 [] []
    ⟨value, r.1, r.2, none⟩

/-- The wire form of an audit path: the length-prefixed leaf value followed by
the `(direction byte, hash)` pairs in order. -/
def encodeAuditPath (value : List Byte) (pairs : List (Byte × List Byte)) : List Byte :=
  WriteVarBytes value ++ (pairs.map (fun p => p.1 :: p.2)).flatten

/-! ## Public keys and what the imported packages provide -/

/-- The `*ec.PublicKey` of `ontology-crypto/ec`: the algorithm tag, the name of
the curve (`Curve.Params().Name`) and the point. -/
structure ECPublicKey where
  Algorithm : Nat
  Name : String
  X : Int
  Y : Int
deriving DecidableEq, Repr

/-- The constant `ec.ECDSA`. -/
def ECDSA : Nat := 0

/-- The constant `ec.SM2`. -/
def SM2 : Nat := 1

/-- The dynamic type of a `keypair.PublicKey` interface value: `*ec.PublicKey`,
`ed25519.PublicKey`, or anything else (the nil interface included). -/
inductive PublicKey where
  | ec (t : ECPublicKey)
  | ed25519 (t : List Byte)
  | other
deriving DecidableEq, Repr

/-- One entry of `ChainConfig.Peers`. -/
structure PeerConfig where
  Index : Nat
  ID : String
deriving DecidableEq, Repr

/-- The `vconf.ChainConfig` fields that are read. -/
structure ChainConfig where
  Peers : List PeerConfig
deriving DecidableEq, Repr

/-- The `vconf.VbftBlockInfo` fields that are read; `NewChainConfig` is a pointer. -/
structure VbftBlockInfo where
  NewChainConfig : Option ChainConfig
deriving DecidableEq, Repr

/-- The `ccom.MakeTxParam` structure. -/
structure MakeTxParam where
  TxHash : List Byte
  CrossChainID : List Byte
  FromContractAddress : List Byte
  ToChainID : Nat
  ToContractAddress : List Byte
  Method : String
  Args : List Byte
deriving DecidableEq, Repr

/-- The `ccom.ToMerkleValue` structure. -/
structure ToMerkleValue where
  TxHash : List Byte
  FromChainID : Nat
  MakeTxParam : Option MakeTxParam
deriving DecidableEq, Repr

/-- Functions and constants of imported packages that the relayer calls. A Go
result pair `(v, err)` is a Lean pair; `Unmarshal` yields the decoded value or
the error. -/
structure Extern where
  /-- Go `strings.ToUpper`. -/
  ToUpper : String → String
  /-- Curve name `elliptic.P224().Params().Name`. -/
  P224Name : String
  /-- Curve name `elliptic.P256().Params().Name`. -/
  P256Name : String
  /-- Curve name `elliptic.P384().Params().Name`. -/
  P384Name : String
  /-- Curve name `elliptic.P521().Params().Name`. -/
  P521Name : String
  /-- Curve name `sm2.SM2P256V1().Params().Name`. -/
  SM2Name : String
  /-- Curve name `btcec.S256().Name`. -/
  S256Name : String
  /-- Point encoding `ec.EncodePublicKey(pub, compressed)`. -/
  EncodePublicKey : ECPublicKey → Bool → List Byte
  /-- Point encoding `crypto.FromECDSAPub`. -/
  FromECDSAPub : ECPublicKey → List Byte
  /-- Hash `crypto.Keccak256`. -/
  Keccak256 : List Byte → List Byte
  /-- Go `hex.DecodeString`: the bytes decoded and the error. -/
  DecodeString : String → List Byte × Option String
  /-- Key parser `keypair.DeserializePublicKey`: the key and the error. -/
  DeserializePublicKey : List Byte → PublicKey × Option String
  /-- Canonical ordering `keypair.SortPublicKeys`. -/
  SortPublicKeys : List PublicKey → List PublicKey
  /-- Go `json.Unmarshal` into a fresh `VbftBlockInfo`. -/
  Unmarshal : List Byte → Except String VbftBlockInfo
  /-- Method `(*ToMerkleValue).Deserialization` on a fresh structure reading the
  given bytes from offset 0: the structure afterwards and the error. -/
  Deserialization : List Byte → ToMerkleValue × Option String
  /-- Constant `config.POLY_ENTRANCE_ADDRESS`. -/
  POLY_ENTRANCE_ADDRESS : String

/-! ## `msg.GetCurveLabel`, `msg.EncodePubKey`, `msg.EncodeEthPubKey` -/

/-- Go `GetCurveLabel(name)`: the cases of the `switch` in source order. -/
def GetCurveLabel (x : Extern) (name : String) : Nat × Option String :=
  let u := x.ToUpper name
  if u = x.ToUpper x.P224Name then (1, none)
  else if u = x.ToUpper x.P256Name then (2, none)
  else if u = x.ToUpper x.P384Name then (3, none)
  else if u = x.ToUpper x.P521Name then (4, none)
  else if u = x.ToUpper x.SM2Name then (20, none)
  else if u = x.ToUpper x.S256Name then (5, none)
  else (0, some ("GetCurveLabel: unknown labelname " ++ name))

/-- Go `EncodeEthPubKey(key)`. -/
def EncodeEthPubKey (x : Extern) (key : PublicKey) : List Byte × Option String :=
  match key with
  | .ec t => (x.FromECDSAPub t, none)
  | .ed25519 _ => ([], some "EncodeEthPubKey: ed25519.PublicKey?")
  | .other => ([], some "EncodeEthPubKey: Unkown key type?")

/-- Go `EncodePubKey(key)`. For an `*ec.PublicKey` the inner `switch` on the
algorithm writes `0x12` (ECDSA, unless the curve name is that of P-256, which
returns at once), `0x13` (SM2) or nothing; then the label and the point follow. -/
def EncodePubKey (x : Extern) (key : PublicKey) : List Byte × Option String :=
  match key with
  | .ec t =>
    if t.Algorithm = ECDSA ∧ t.Name = x.P256Name then
      (x.EncodePublicKey t false, none)
    else
      let buf : List Byte :=
        if t.Algorithm = ECDSA then [0x12]
        else if t.Algorithm = SM2 then [0x13]
        else []
      match GetCurveLabel x t.Name with
      | (_, some err) => ([], some ("EncodePubKey " ++ err))
      | (label, none) => (buf ++ [byteOf label] ++ x.EncodePublicKey t false, none)
  | .ed25519 _ => ([], some "EncodePubKey: ed25519.PublicKey?")
  | .other => ([], some "EncodePubKey: unknown key type")

/-! ## Records: headers, events, the transaction record, the relay-chain node -/

/-- The `types.Header` fields that are read. -/
structure Header where
  Height : Nat
  NextBookkeeper : List Byte
  ConsensusPayload : List Byte
  SigData : List (List Byte)
deriving DecidableEq, Repr

/-- The constant `common.ADDRESS_EMPTY`: twenty zero bytes. -/
def ADDRESS_EMPTY : List Byte := List.replicate 20 0

/-- The record `msg.Tx`, field for field. -/
structure Tx where
  TxType : Nat
  ChainId : Nat
  TxID : String
  Hash : String
  PolyHash : String
  PolyHeight : Nat
  DstPolyEpochStartHeight : Nat
  DstPolyKeepers : List Byte
  DstData : List Byte
  MerkleValue : Option ToMerkleValue
  PolyHeader : Option Header
  AnchorHeader : Option Header
deriving DecidableEq, Repr

/-- An element of a notification's `[]interface{}`: a string, or a value of
another dynamic type. -/
inductive StateField where
  | str (s : String)
  | other
deriving DecidableEq, Repr

/-- The dynamic value of `NotifyEventInfo.States`: a `[]interface{}`, or a value
of another dynamic type. -/
inductive States where
  | list (fields : List StateField)
  | other
deriving DecidableEq, Repr

/-- The record `scom.NotifyEventInfo`. -/
structure NotifyEventInfo where
  ContractAddress : String
  States : States
deriving DecidableEq, Repr

/-- The record `scom.SmartContactEvent`. -/
structure SmartContactEvent where
  TxHash : String
  Notify : List NotifyEventInfo
deriving DecidableEq, Repr

/-- The record `scom.MerkleProof`: only `AuditPath` is read. -/
structure MerkleProof where
  AuditPath : String
deriving DecidableEq, Repr

/-- The relay-chain client `s.sdk.Node()`. -/
structure Node where
  GetBlockHeightByTxHash : String → Nat × Option String
  GetHeaderByHeight : Nat → Except String Header
  GetMerkleProof : Nat → Nat → Except String MerkleProof
  GetSmartContractEvent : String → Except String SmartContactEvent
  GetCrossStatesProof : Nat → String → Except String MerkleProof

/-- What a run does, in order: each request sent to the relay-chain node, and
each call of `CheckEpoch`. -/
inductive Step where
  | GetBlockHeightByTxHash (hash : String)
  | GetHeaderByHeight (height : Nat)
  | GetMerkleProof (lo hi : Nat)
  | GetSmartContractEvent (hash : String)
  | GetCrossStatesProof (height : Nat) (key : String)
  | CheckEpoch (hdr : Header)
deriving DecidableEq, Repr

/-- Wrap-around of `uint32` arithmetic. -/
def u32 (n : Nat) : Nat := n % 2 ^ 32

/-! ## `Submitter.CheckEpoch` -/

/-- Results of `CheckEpoch`; `fault` holds the message of a Go run-time panic, in
which case nothing is returned. -/
structure EpochCheck where
  epoch : Bool
  pubKeys : List Byte
  err : Option String
  fault : Option String
deriving DecidableEq, Repr

/-- The first loop of `CheckEpoch`: every peer id is hex-decoded and parsed, both
errors being dropped. -/
def peerKeys (x : Extern) (peers : List PeerConfig) : List PublicKey :=
  peers.map (fun peer => (x.DeserializePublicKey (x.DecodeString peer.ID).1).1)

/-- The second loop of `CheckEpoch` over the sorted keys, with the named result
`pubKeys` and the contents of `sink` as accumulators. The result is
`(pubKeys, sink, err, fault)`. -/
def checkEpochLoop (x : Extern) : List PublicKey → List Byte → List Byte →
    List Byte × List Byte × Option String × Option String
  | [], pubKeys, sink => (pubKeys, sink, none, none)
  | key :: rest, pubKeys, sink =>
    match EncodePubKey x key with
    | (_, some err) => (pubKeys, sink, some err, none)
    | (bytes, none) =>
      let pubKeys1 := pubKeys ++ bytes
      match EncodeEthPubKey x key with
      | (_, some err) => (pubKeys1, sink, some err, none)
      | (bytes1, none) =>
        if bytes1.length < 1 then
          (pubKeys1, sink, none, some "slice bounds out of range [1:0]")
        else
          let h := x.Keccak256 (slice bytes1 1 bytes1.length)
          if h.length < 12 then
            (pubKeys1, sink, none, some "slice bounds out of range [12:]")
          else
            checkEpochLoop x rest pubKeys1 (sink ++ WriteVarBytes (slice h 12 h.length))

/-- Go `CheckEpoch(tx, hdr)`. -/
def CheckEpoch (x : Extern) (tx : Tx) (hdr : Header) : EpochCheck :=
  if tx.DstPolyKeepers.length = 0 then
    ⟨false, [], some "Dst chain poly keeper not provided", none⟩
  else if hdr.NextBookkeeper = ADDRESS_EMPTY then
    ⟨false, [], none, none⟩
  else
    match x.Unmarshal hdr.ConsensusPayload with
    | .error err =>
      ⟨false, [], some ("CheckEpoch consensus payload unmarshal error " ++ err), none⟩
    | .ok info =>
      match info.NewChainConfig with
      | none => ⟨false, [], none, some "nil pointer dereference"⟩
      | some cfg =>
        let bks := x.SortPublicKeys (peerKeys x cfg.Peers)
        let sink0 := WriteUint64 (bks.length % 2 ^ 64)
        match checkEpochLoop x bks [] sink0 with
        | (pubKeys, _, _, some f) => ⟨false, pubKeys, none, some f⟩
        | (pubKeys, _, some err, none) => ⟨false, pubKeys, some err, none⟩
        | (pubKeys, sink, none, none) => ⟨decide (tx.DstPolyKeepers ≠ sink), pubKeys, none, none⟩

/-! ## `Submitter.GetPolyParams` -/

/-- Results of `GetPolyParams`, with the record as the call leaves it, the steps
taken, and `fault` for a Go run-time panic. -/
structure PolyParams where
  steps : List Step
  tx : Tx
  param : Option ToMerkleValue
  path : List Byte
  evt : Option SmartContactEvent
  err : Option String
  fault : Option String
deriving DecidableEq, Repr

/-- Results of the notification loop: `(steps, param, path, err, fault)`. -/
structure NotifyScan where
  steps : List Step
  param : Option ToMerkleValue
  path : List Byte
  err : Option String
  fault : Option String
deriving DecidableEq, Repr

/-- The loop `for _, notify := range evt.Notify` of `GetPolyParams` together with
the two statements after it; `param` and `path` are the named results as the
iterations so far left them. -/
def notifyLoop (x : Extern) (node : Node) (height : Nat) :
    List NotifyEventInfo → Option ToMerkleValue → List Byte → List Step → NotifyScan
  | [], param, path, steps => ⟨steps, param, path, some "Valid ToMerkleValue not found", none⟩
  | notify :: rest, param, path, steps =>
    if notify.ContractAddress = x.POLY_ENTRANCE_ADDRESS then
      match notify.States with
      | .other => ⟨steps, param, path, none, some "interface conversion: not []interface {}"⟩
      | .list states =>
        if 5 < states.length then
          let method := match states.get? 0 with
            | some (.str m) => m
            | _ => ""
          if method = "makeProof" then
            match states.get? 5 with
            | some (.str key) =>
              let steps1 := steps ++ [Step.GetCrossStatesProof height key]
              match node.GetCrossStatesProof height key with
              | .error e =>
                ⟨steps1, param, path,
                  some ("GetPolyParams: GetCrossStatesProof error " ++ e), none⟩
              | .ok proof =>
                match x.DecodeString proof.AuditPath with
                | (path1, some err) => ⟨steps1, param, path1, some err, none⟩
                | (path1, none) =>
                  let value := (ParseAuditPath path1).value
                  match x.Deserialization value with
                  | (param1, some _) => notifyLoop x node height rest (some param1) path1 steps1
                  | (param1, none) => ⟨steps1, some param1, path1, none, none⟩
            | _ => ⟨steps, param, path, none, some "interface conversion: not string"⟩
          else notifyLoop x node height rest param path steps
        else notifyLoop x node height rest param path steps
    else notifyLoop x node height rest param path steps

/-- Go `GetPolyParams(tx)`. The event is requested for `tx.PolyHash` (the source
passes an identifier `hash` that it does not declare). -/
def GetPolyParams (x : Extern) (node : Node) (tx : Tx) : PolyParams :=
  if tx.PolyHash = "" then
    ⟨[], tx, none, [], none, some "ComposeTx: Invalid poly hash", none⟩
  else
    let r := if tx.PolyHeight = 0 then node.GetBlockHeightByTxHash tx.PolyHash else (tx.PolyHeight, none)
    let steps0 := if tx.PolyHeight = 0 then [Step.GetBlockHeightByTxHash tx.PolyHash] else []
    let tx1 := { tx with PolyHeight := r.1 }
    match r.2 with
    | some err => ⟨steps0, tx1, none, [], none, some err, none⟩
    | none =>
      let steps1 := steps0 ++ [Step.GetSmartContractEvent tx.PolyHash]
      match node.GetSmartContractEvent tx.PolyHash with
      | .error err => ⟨steps1, tx1, none, [], none, some err, none⟩
      | .ok evt =>
        let r := notifyLoop x node tx1.PolyHeight evt.Notify none [] steps1
        ⟨r.steps, tx1, r.param, r.path, some evt, r.err, r.fault⟩

/-! ## `Submitter.ComposeTx` -/

/-- What a run of `ComposeTx` leaves behind: the steps taken, the record as the
call leaves it (the source updates it in place), the locals `anchorHeight`,
`anchor` and `hp`, the returned error, and `fault` for a Go run-time panic. -/
structure Composed where
  steps : List Step
  tx : Tx
  anchorHeight : Nat
  anchor : Option Header
  hp : String
  err : Option String
  fault : Option String
deriving DecidableEq, Repr

/-- Lines 151-157 of `ComposeTx`: the value extraction and the one assignment to
the record. -/
def composeValue (x : Extern) (node : Node) (tx : Tx) (anchorHeight : Nat)
    (anchor : Option Header) (hp : String) (steps : List Step) : Composed :=
  let p := GetPolyParams x node tx
  match p.fault with
  | some f => ⟨steps ++ p.steps, p.tx, anchorHeight, anchor, hp, none, some f⟩
  | none =>
    match p.err with
    | some err => ⟨steps ++ p.steps, p.tx, anchorHeight, anchor, hp, some err, none⟩
    | none =>
      ⟨steps ++ p.steps, { p.tx with MerkleValue := p.param }, anchorHeight, anchor, hp,
        none, none⟩

/-- Lines 139-149 of `ComposeTx`: when `anchorHeight > 0`, the anchor header and
the Merkle proof from `PolyHeight + 1` to `anchorHeight` are requested. -/
def composeFetch (x : Extern) (node : Node) (tx : Tx) (anchorHeight : Nat)
    (steps : List Step) : Composed :=
  if 0 < anchorHeight then
    let steps1 := steps ++ [Step.GetHeaderByHeight anchorHeight]
    match node.GetHeaderByHeight anchorHeight with
    | .error err => ⟨steps1, tx, anchorHeight, none, "", some err, none⟩
    | .ok anchor =>
      let steps2 := steps1 ++ [Step.GetMerkleProof (u32 (tx.PolyHeight + 1)) anchorHeight]
      match node.GetMerkleProof (u32 (tx.PolyHeight + 1)) anchorHeight with
      | .error err => ⟨steps2, tx, anchorHeight, some anchor, "", some err, none⟩
      | .ok proof => composeValue x node tx anchorHeight (some anchor) proof.AuditPath steps2
  else
    composeValue x node tx anchorHeight none "" steps

/-- Lines 127-137 of `ComposeTx`: the choice of `anchorHeight`. -/
def composeAnchor (x : Extern) (node : Node) (tx : Tx) (hdr : Header)
    (steps : List Step) : Composed :=
  if tx.PolyHeight < tx.DstPolyEpochStartHeight then
    composeFetch x node tx (u32 (tx.DstPolyEpochStartHeight + 1)) steps
  else
    let steps1 := steps ++ [Step.CheckEpoch hdr]
    let c := CheckEpoch x tx hdr
    match c.fault with
    | some f => ⟨steps1, tx, 0, none, "", none, some f⟩
    | none =>
      match c.err with
      | some err => ⟨steps1, tx, 0, none, "", some err, none⟩
      | none =>
        composeFetch x node tx (if c.epoch then u32 (tx.PolyHeight + 2) else 0) steps1

/-- Go `ComposeTx(tx)`. -/
def ComposeTx (x : Extern) (node : Node) (tx : Tx) : Composed :=
  if tx.PolyHash = "" then
    ⟨[], tx, 0, none, "", some "ComposeTx: Invalid poly hash", none⟩
  else if tx.DstPolyEpochStartHeight = 0 then
    ⟨[], tx, 0, none, "", some "ComposeTx: Dst chain poly height not specified", none⟩
  else
    let r := if tx.PolyHeight = 0 then node.GetBlockHeightByTxHash tx.PolyHash else (tx.PolyHeight, none)
    let steps0 := if tx.PolyHeight = 0 then [Step.GetBlockHeightByTxHash tx.PolyHash] else []
    let tx1 := { tx with PolyHeight := r.1 }
    match r.2 with
    | some err => ⟨steps0, tx1, 0, none, "", some err, none⟩
    | none =>
      let steps1 := steps0 ++ [Step.GetHeaderByHeight (u32 (tx1.PolyHeight + 1))]
      match node.GetHeaderByHeight (u32 (tx1.PolyHeight + 1)) with
      | .error err => ⟨steps1, tx1, 0, none, "", some err, none⟩
      | .ok hdr => composeAnchor x node tx1 hdr steps1

/-! ## Specification-side notions -/

/-- The header and Merkle-proof requests among the steps of a run, in order. -/
def fetches (steps : List Step) : List Step :=
  steps.filter (fun s =>
    match s with
    | .GetHeaderByHeight _ => true
    | .GetMerkleProof _ _ => true
    | _ => false)

/-- The calls of `CheckEpoch` among the steps of a run. -/
def epochChecks (steps : List Step) : List Step :=
  steps.filter (fun s =>
    match s with
    | .CheckEpoch _ => true
    | _ => false)

/-- The relay height a composition works with: the one of the record, or, when
that is 0, the one the node resolves from the relay hash. -/
def relayHeight (node : Node) (tx : Tx) : Nat :=
  if tx.PolyHeight = 0 then (node.GetBlockHeightByTxHash tx.PolyHash).1 else tx.PolyHeight

/-- The six curve names that `GetCurveLabel` knows, upper-cased, in the order of
its `switch`. -/
def curveNamesUpper (x : Extern) : List String :=
  [x.ToUpper x.P224Name, x.ToUpper x.P256Name, x.ToUpper x.P384Name, x.ToUpper x.P521Name,
    x.ToUpper x.SM2Name, x.ToUpper x.S256Name]

/-- Spec 4.2, supported key families: an elliptic-curve key (ECDSA or SM2) whose
curve name has a label. -/
def Supported (x : Extern) (key : PublicKey) : Prop :=
  ∃ t, key = .ec t ∧ (GetCurveLabel x t.Name).2 = none

/-- Spec 4.3, fingerprint of a key: `encodeEvmCompatible` with its first byte
dropped, hashed with Keccak-256, of which the low-order 20 bytes are kept. -/
def fingerprint (x : Extern) (key : PublicKey) : List Byte :=
  let h := x.Keccak256 ((EncodeEthPubKey x key).1.drop 1)
  h.drop (h.length - 20)

/-- Spec 4.3, the commitment of a key list already in canonical order: the 8-byte
count, then every fingerprint length-prefixed. -/
def commitment (x : Extern) (keys : List PublicKey) : List Byte :=
  WriteUint64 keys.length ++ (keys.map (fun key => WriteVarBytes (fingerprint x key))).flatten

/-- Spec 4.4, a notification that is passed over while the proof-bearing one is
looked for: it is not from the entrance contract, or it has at most 5 state
fields or another method tag, or it is a candidate whose proof is fetched and
hex-decoded but whose audit-path value does not deserialize. -/
def PassedOver (x : Extern) (node : Node) (height : Nat) (n : NotifyEventInfo) : Prop :=
  n.ContractAddress ≠ x.POLY_ENTRANCE_ADDRESS ∨
  ∃ states, n.States = .list states ∧
    (states.length ≤ 5 ∨ states.get? 0 ≠ some (.str "makeProof") ∨
      ∃ key proof path, states.get? 5 = some (.str key) ∧
        node.GetCrossStatesProof height key = .ok proof ∧
        x.DecodeString proof.AuditPath = (path, none) ∧
        (x.Deserialization (ParseAuditPath path).value).2 ≠ none)

/-- Spec 4.4, a qualifying notification: from the entrance contract, more than 5
state fields, method tag `makeProof`, sixth field the string `key`, whose proof
is fetched and hex-decoded to `path` and whose audit-path value deserializes to
`param`. -/
def Qualifies (x : Extern) (node : Node) (height : Nat) (n : NotifyEventInfo)
    (key : String) (path : List Byte) (param : ToMerkleValue) : Prop :=
  n.ContractAddress = x.POLY_ENTRANCE_ADDRESS ∧
  ∃ states proof, n.States = .list states ∧ 5 < states.length ∧
    states.get? 0 = some (.str "makeProof") ∧ states.get? 5 = some (.str key) ∧
    node.GetCrossStatesProof height key = .ok proof ∧
    x.DecodeString proof.AuditPath = (path, none) ∧
    x.Deserialization (ParseAuditPath path).value = (param, none)

/-- The proof request that reading a notification causes, if any: the one for
the sixth field of a candidate. -/
def proofRequest (x : Extern) (height : Nat) (n : NotifyEventInfo) : List Step :=
  if n.ContractAddress = x.POLY_ENTRANCE_ADDRESS then
    match n.States with
    | .list states =>
      if 5 < states.length ∧ states.get? 0 = some (.str "makeProof") then
        match states.get? 5 with
        | some (.str key) => [Step.GetCrossStatesProof height key]
        | _ => []
      else []
    | .other => []
  else []

/-! ## A concrete instance, for evaluating the definitions on examples -/

/-- ASCII upper-casing of a string. -/
def asciiUpper (s : String) : String := ⟨s.data.map Char.toUpper⟩

/-- Value of a hexadecimal digit. -/
def hexVal (c : Char) : Option Nat :=
  let n := c.toNat
  if 48 ≤ n ∧ n ≤ 57 then some (n - 48)
  else if 97 ≤ n ∧ n ≤ 102 then some (n - 87)
  else if 65 ≤ n ∧ n ≤ 70 then some (n - 55)
  else none

/-- Hexadecimal decoding: the bytes decoded before an error, and the error. -/
def hexDecode : List Char → List Byte × Option String
  | a :: b :: rest =>
    match hexVal a, hexVal b with
    | some hi, some lo =>
      let r := hexDecode rest
      (byteOf (16 * hi + lo) :: r.1, r.2)
    | _, _ => ([], some "encoding/hex: invalid byte")
  | [_] => ([], some "encoding/hex: odd length hex string")
  | [] => ([], none)

/-- Uncompressed point `0x04 ‖ X ‖ Y` with 32-byte big-endian coordinates. -/
def samplePoint (t : ECPublicKey) : List Byte :=
  byteOf 4 :: ((leBytes 32 t.X.toNat).reverse ++ (leBytes 32 t.Y.toNat).reverse)

/-- A 32-byte digest standing in for Keccak-256 in examples. -/
def sampleDigest (b : List Byte) : List Byte :=
  leBytes 32 (b.foldl (fun acc c => (acc * 31 + c.val + 1) % 2 ^ 256) 0)

/-- A key format for examples: tag `0` an Ed25519 key, tag `1` a secp256k1 key,
tag `2` a P-256 key, the rest of the bytes being the key or its `X`. -/
def sampleKey (b : List Byte) : PublicKey × Option String :=
  match b with
  | [] => (.other, some "invalid public key data")
  | t :: rest =>
    if t.val = 0 then (.ed25519 rest, none)
    else if t.val = 1 then (.ec ⟨ECDSA, "secp256k1", leNat rest, 1⟩, none)
    else if t.val = 2 then (.ec ⟨ECDSA, "P-256", leNat rest, 1⟩, none)
    else (.other, some "unrecognized public key")

/-- The rank by which the example ordering sorts keys. -/
def sampleRank (key : PublicKey) : Nat :=
  match key with
  | .ec t => t.X.toNat
  | .ed25519 b => 2 ^ 256 + leNat b
  | .other => 0

/-- A consensus-payload decoder for examples, knowing three payloads. -/
def sampleUnmarshal (payload : List Byte) : Except String VbftBlockInfo :=
  if payload = [1] then .ok ⟨some ⟨[⟨1, "0107"⟩, ⟨2, "0103"⟩]⟩⟩
  else if payload = [2] then .ok ⟨some ⟨[⟨1, "0107"⟩, ⟨2, "00aa"⟩]⟩⟩
  else if payload = [3] then .ok ⟨none⟩
  else .error "unexpected end of JSON input"

/-- A `ToMerkleValue` reader for examples: the transaction hash and the chain id. -/
def sampleDeserialization (value : List Byte) : ToMerkleValue × Option String :=
  match (NewZeroCopySource value).NextVarBytes with
  | (_, true, _) => (⟨[], 0, none⟩, some "MerkleValue deserialize txHash error")
  | (txHash, false, src) =>
    match src.NextUint64 with
    | (_, true, _) => (⟨[], 0, none⟩, some "MerkleValue deserialize fromChainID error")
    | (fromChainID, false, _) => (⟨txHash, fromChainID, none⟩, none)

/-- The example instance of the imported packages. -/
def sampleExtern : Extern where
  ToUpper := asciiUpper
  P224Name := "P-224"
  P256Name := "P-256"
  P384Name := "P-384"
  P521Name := "P-521"
  SM2Name := "sm2p256v1"
  S256Name := "secp256k1"
  EncodePublicKey := fun t _ => samplePoint t
  FromECDSAPub := samplePoint
  Keccak256 := sampleDigest
  DecodeString := fun s => hexDecode s.data
  DeserializePublicKey := sampleKey
  SortPublicKeys := List.insertionSort (fun a b => sampleRank a ≤ sampleRank b)
  Unmarshal := sampleUnmarshal
  Deserialization := sampleDeserialization
  POLY_ENTRANCE_ADDRESS := "0300000000000000000000000000000000000000"

/-- An example notification of the entrance contract with method tag `makeProof`
and six state fields, the sixth being `key`. -/
def sampleNotify (key : String) : NotifyEventInfo :=
  ⟨"0300000000000000000000000000000000000000",
    .list [.str "makeProof", .other, .other, .other, .other, .str key]⟩

/-- The example events: the transaction `aa` has a notification of another
contract, a short one, a candidate whose value does not deserialize, a
qualifying one and a later qualifying one; the transaction `bb` has only a
candidate whose value does not deserialize. -/
def sampleEvent (hash : String) : SmartContactEvent :=
  if hash = "aa" then
    ⟨hash, [⟨"0100000000000000000000000000000000000000", .other⟩,
      ⟨"0300000000000000000000000000000000000000", .list [.str "makeProof"]⟩,
      sampleNotify "00", sampleNotify "0b02aabb0700000000000000",
      sampleNotify "0b02ccdd0900000000000000"]⟩
  else if hash = "bb" then ⟨hash, [sampleNotify "00"]⟩
  else ⟨hash, []⟩

/-- The example relay-chain node: every header carries a next-keeper marker and
the consensus payload `[1]`; the audit path of a cross-states proof is its key. -/
def sampleNode : Node where
  GetBlockHeightByTxHash := fun _ => (80, none)
  GetHeaderByHeight := fun h => .ok ⟨h, List.replicate 20 1, [1], []⟩
  GetMerkleProof := fun _ _ => .ok ⟨"00"⟩
  GetSmartContractEvent := fun hash => .ok (sampleEvent hash)
  GetCrossStatesProof := fun _ key => .ok ⟨key⟩

/-- The example record of the epoch-rollover scenario: relay height 80, epoch
start 50, and a known commitment that differs from the one of header 81. -/
def sampleTx : Tx :=
  ⟨2, 2, "", "", "aa", 80, 50, [1], [], none, none, none⟩

/-- The example record with the largest epoch-start height a `uint32` holds. -/
def sampleTxMax : Tx :=
  { sampleTx with DstPolyEpochStartHeight := 4294967295 }

/-- The example record whose only candidate notification does not deserialize. -/
def sampleTxBad : Tx :=
  { sampleTx with PolyHash := "bb" }

/-! ## `Submitter.MakeTx` -/

/-- What a run of `MakeTx` leaves behind: the local `sigHeader`, the signatures
handed to the converter in order, the local `sigs`, the returned error, and
`fault` for a Go run-time panic. -/
structure MadeTx where
  sigHeader : Option Header
  converted : List (List Byte)
  sigs : List Byte
  err : Option String
  fault : Option String
deriving DecidableEq, Repr

/-- The loop `for _, sig := range sigHeader.SigData` of `MakeTx`; `convert` is
`signature.ConvertToEthCompatible`. The source appends the converted signature as
one element, which does not type-check; its bytes are appended here. The result
is `(converted, sigs, err)`. -/
def makeTxLoop (convert : List Byte → List Byte × Option String) :
    List (List Byte) → List (List Byte) → List Byte →
    List (List Byte) × List Byte × Option String
  | [], converted, sigs => (converted, sigs, none)
  | sig :: rest, converted, sigs =>
    match convert sig with
    | (_, some err) =>
      (converted ++ [sig], sigs, some ("MakeTx signature.ConvertToEthCompatible " ++ err))
    | (s, none) => makeTxLoop convert rest (converted ++ [sig]) (sigs ++ s)

/-- Go `MakeTx(tx, header, anchor, proof, rawAuditPath)`; a nil `header` or
`anchor` is `none`. -/
def MakeTx (convert : List Byte → List Byte × Option String) (_tx : Tx)
    (header anchor : Option Header) (proof : String) (_rawAuditPath : List Byte) : MadeTx :=
  let sigHeader := if anchor ≠ none ∧ proof ≠ "" then anchor else header
  match sigHeader with
  | none => ⟨sigHeader, [], [], none, some "nil pointer dereference"⟩
  | some h =>
    let r := makeTxLoop convert h.SigData [] []
    ⟨sigHeader, r.1, r.2.1, r.2.2, none⟩

/-! ## The relay-chain listener, `relayer/poly/listener.go` -/

namespace poly

/-- The fields of the record that `Scan` sets. -/
structure ScannedTx where
  PolyKey : String
  PolyHeight : Nat
  PolyHash : String
deriving DecidableEq, Repr

/-- Results of `Scan`, and `fault` for a Go run-time panic. -/
structure Scanned where
  txs : List ScannedTx
  err : Option String
  fault : Option String
deriving DecidableEq, Repr

/-- The inner loop `for _, notify := range event.Notify` of `Scan`, for the event
with hash `txHash`; `ccm` is `poly.CCM_ADDRESS`. The result is `(txs, fault)`. -/
def scanNotify (ccm : String) (height : Nat) (txHash : String) :
    List NotifyEventInfo → List ScannedTx → List ScannedTx × Option String
  | [], txs => (txs, none)
  | notify :: rest, txs =>
    if notify.ContractAddress = ccm then
      match notify.States with
      | .other => (txs, some "interface conversion: not []interface {}")
      | .list states =>
        match states.get? 0 with
        | none => (txs, some "index out of range [0]")
        | some f0 =>
          let method := match f0 with
            | .str m => m
            | .other => ""
          if method ≠ "makeProof" then scanNotify ccm height txHash rest txs
          else
            match states.get? 5 with
            | none => (txs, some "index out of range [5]")
            | some .other => (txs, some "interface conversion: not string")
            | some (.str key) =>
              scanNotify ccm height txHash rest (txs ++ [⟨key, u32 height, txHash⟩])
    else scanNotify ccm height txHash rest txs

/-- The outer loop `for _, event := range events` of `Scan`. -/
def scanEvents (ccm : String) (height : Nat) :
    List SmartContactEvent → List ScannedTx → List ScannedTx × Option String
  | [], txs => (txs, none)
  | event :: rest, txs =>
    match scanNotify ccm height event.TxHash event.Notify txs with
    | (txs1, some f) => (txs1, some f)
    | (txs1, none) => scanEvents ccm height rest txs1

/-- Go `Scan(height)` of the relay-chain listener; `getEvents` is the node's
`GetSmartContractEventByBlock`. -/
def Listener.Scan (ccm : String)
    (getEvents : Nat → Except String (List SmartContactEvent)) (height : Nat) : Scanned :=
  match getEvents (u32 height) with
  | .error err => ⟨[], some err, none⟩
  | .ok events =>
    match scanEvents ccm height events [] with
    | (_, some f) => ⟨[], none, some f⟩
    | (txs, none) => ⟨txs, none, none⟩

/-- Go `ScanTx(hash)` of the relay-chain listener: a bare `return` of the named
results `tx` and `err`, neither of which is assigned. -/
def Listener.ScanTx (_hash : String) : Option Tx × Option String := (none, none)

end poly

/-! ## The source-chain listener, `relayer/eth/listener.go` -/

/-- A Go error value: made by `errors.New` or by `fmt.Errorf` without `%w`, or
made by `fmt.Errorf` with `%w` around another error. -/
inductive GoError where
  | new (msg : String)
  | wrap (msg : String) (inner : GoError)
deriving DecidableEq, Repr

/-- The method `Error()`: the message. -/
def GoError.Error : GoError → String
  | .new msg => msg
  | .wrap msg _ => msg

/-- Go `errors.Is(err, target)`: `err` or an error it wraps is `target`. -/
def GoError.Is : GoError → GoError → Bool
  | .new msg, target => decide (GoError.new msg = target)
  | .wrap msg inner, target => decide (GoError.wrap msg inner = target) || inner.Is target

/-- Wrap-around subtraction of `uint64` values. -/
def u64sub (a b : Nat) : Nat := (a % 2 ^ 64 + 2 ^ 64 - b % 2 ^ 64) % 2 ^ 64

namespace eth

/-- The proof a source-chain node returns (`eth.ETHProof`), as its content. -/
structure ETHProof where
  data : List Byte
deriving DecidableEq, Repr

/-- Constants and functions of other packages that the listener uses: the chain
ids and `BlocksToWait` of `bridge-common/base`, `msg.ERR_PROOF_UNAVAILABLE` and
`msg.EncodeTxId`, `ceth.MappingKeyAt`, `hexutil.Encode` and `json.Marshal`. -/
structure Env where
  ETH : Nat
  BSC : Nat
  HECO : Nat
  O3 : Nat
  OK : Nat
  BlocksToWait : Nat → Nat
  ERR_PROOF_UNAVAILABLE : GoError
  EncodeTxId : List Byte → String
  MappingKeyAt : String → String → List Byte × Option GoError
  Encode : List Byte → String
  Marshal : ETHProof → List Byte × Option GoError

/-- The listener: the fields `config.ChainId`, `name`, `ccd` (as the string
`l.ccd.String()`) and `GetProofHeight` (what calling it returns), and the calls
it makes to the relay-chain node (`GetSideChainHeight`) and to the source-chain
node (`GetLatestHeight`, `GetProof`). -/
structure Listener where
  ChainId : Nat
  name : String
  ccd : String
  GetProofHeight : Nat × Option GoError
  GetSideChainHeight : Nat → Nat × Option GoError
  GetLatestHeight : Nat × Option GoError
  GetProof : String → String → Nat → Except GoError ETHProof

/-- What `getProof` asks for, in order. -/
inductive Call where
  | GetProofHeight
  | GetProof (addr key : String) (height : Nat)
deriving DecidableEq, Repr

/-- Go `getProofHeight()`. -/
def Listener.getProofHeight (e : Env) (l : Listener) : Nat × Option GoError :=
  if l.ChainId = e.ETH ∨ l.ChainId = e.BSC ∨ l.ChainId = e.HECO ∨ l.ChainId = e.O3 then
    match l.GetSideChainHeight l.ChainId with
    | (_, some err) => (0, some err)
    | (h, none) => (u64sub h (e.BlocksToWait l.ChainId), none)
  else if l.ChainId = e.OK then
    match l.GetLatestHeight with
    | (_, some err) => (0, some err)
    | (h, none) => (u64sub h 3, none)
  else (0, some (.new ("getProofHeight unsupported chain " ++ l.name)))

/-- Results of `getProof`, with the calls made. -/
structure Proved where
  calls : List Call
  height : Nat
  proof : List Byte
  err : Option GoError
deriving DecidableEq, Repr

/-- Go `getProof(txId, txHeight)`. -/
def Listener.getProof (e : Env) (l : Listener) (txId : List Byte) (txHeight : Nat) : Proved :=
  let id := e.EncodeTxId txId
  match e.MappingKeyAt id "01" with
  | (_, some err) =>
    ⟨[], 0, [], some (.new (l.name ++ " scan event mapping key error " ++ err.Error))⟩
  | (bytes, none) =>
    let proofKey := e.Encode bytes
    match l.GetProofHeight with
    | (height, some err) =>
      ⟨[.GetProofHeight], height, [],
        some (.new (l.name ++ " can height get proof height error " ++ err.Error))⟩
    | (height, none) =>
      if txHeight ≥ height then
        ⟨[.GetProofHeight], height, [],
          some (.wrap (e.ERR_PROOF_UNAVAILABLE.Error ++ " Proof not ready")
            e.ERR_PROOF_UNAVAILABLE)⟩
      else
        match l.GetProof l.ccd proofKey height with
        | .error err => ⟨[.GetProofHeight, .GetProof l.ccd proofKey height], 0, [], some err⟩
        | .ok ethProof =>
          ⟨[.GetProofHeight, .GetProof l.ccd proofKey height], height,
            (e.Marshal ethProof).1, (e.Marshal ethProof).2⟩

/-- The assignment `l.GetProofHeight = l.getProofHeight` of `Init`. -/
def Listener.Init (e : Env) (l : Listener) : Listener :=
  { l with GetProofHeight := l.getProofHeight e }

/-- Go `ScanTx(hash)` of the source-chain listener: a bare `return` of the named
results `tx` and `err`, neither of which is assigned. -/
def Listener.ScanTx (_hash : String) : Option Tx × Option String := (none, none)

end eth

/-! ## More concrete instances -/

/-- An injective code of a public key, by which the canonical example ordering
compares keys. -/
def keyCode : PublicKey → List Nat
  | .ec t =>
    [0, t.Algorithm, Encodable.encode t.X, Encodable.encode t.Y] ++ t.Name.data.map Char.toNat
  | .ed25519 b => 1 :: b.map Fin.val
  | .other => [2]

/-- The canonical example ordering of public keys. -/
def keyLe (a b : PublicKey) : Prop := keyCode a ≤ keyCode b

/-- Decidability of the canonical example ordering. -/
instance keyLeDecidable : DecidableRel keyLe :=
  fun a b => inferInstanceAs (Decidable (keyCode a ≤ keyCode b))

/-- The example instance with a sort by the canonical ordering, whose payload
decoder also knows the payload `[4]`: the peers of payload `[1]` in the other
order. -/
def canonExtern : Extern :=
  { sampleExtern with
    SortPublicKeys := List.insertionSort keyLe
    Unmarshal := fun payload =>
      if payload = [4] then .ok ⟨some ⟨[⟨2, "0103"⟩, ⟨1, "0107"⟩]⟩⟩
      else sampleUnmarshal payload }

/-- The example node with no header to give. -/
def sampleNodeNoHeader : Node :=
  { sampleNode with GetHeaderByHeight := fun _ => .error "header not found" }

/-- The example record with an unknown relay height. -/
def sampleTxUnknown : Tx :=
  { sampleTx with PolyHeight := 0 }

/-- The example constants of the source-chain listener. -/
def sampleEnv : eth.Env where
  ETH := 2
  BSC := 6
  HECO := 7
  O3 := 10
  OK := 12
  BlocksToWait := fun _ => 12
  ERR_PROOF_UNAVAILABLE := .new "Proof unavailable"
  EncodeTxId := fun _ => "00"
  MappingKeyAt := fun _ _ => ([1], none)
  Encode := fun _ => "0x01"
  Marshal := fun p => (p.data, none)

/-- The example listener of the OK chain whose node reports the chain height
`head`. -/
def sampleListener (head : Nat) : eth.Listener :=
  eth.Listener.Init sampleEnv
    { ChainId := 12
      name := "ok"
      ccd := "0xccd"
      GetProofHeight := (0, none)
      GetSideChainHeight := fun _ => (head, none)
      GetLatestHeight := (head, none)
      GetProof := fun _ _ _ => .ok ⟨[7]⟩ }

/-! # Theorems -/

set_option maxRecDepth 100000

/-! ## The audit-path decoder -/

theorem ParseAuditPath_err_none (path : List Byte) : (ParseAuditPath path).err = none := by
  unfold ParseAuditPath
  simp only []
  split <;> rfl

/-- Claim C1, evaluated at two truncated inputs. The input `[5, 1, 2]` announces
a five-byte value and ends after two bytes; the input `[0, 7]` followed by 31
bytes ends inside the hash of a pair whose direction byte was read. On both
`ParseAuditPath` returns a nil error, with the two-byte value in the first case
and with one direction byte and no hash in the second. -/
theorem ParseAuditPath_truncated_nil_error :
    ParseAuditPath [5, 1, 2] = ⟨[1, 2], [], [], none⟩ ∧
    ParseAuditPath ([0, 7] ++ List.replicate 31 9) = ⟨[], [7], [], none⟩ := by
  decide

/-! ## Reader lemmas -/

theorem leBytes_length (k n : Nat) : (leBytes k n).length = k := by
  induction k generalizing n with
  | zero => rfl
  | succ k ih => simp [leBytes, ih]

theorem leNat_leBytes (k n : Nat) : leNat (leBytes k n) = n % 256 ^ k := by
  induction k generalizing n with
  | zero => simp [leBytes, leNat, Nat.mod_one]
  | succ k ih =>
    simp only [leBytes, leNat, ih, byteOf]
    rw [pow_succ', Nat.mod_mul]

theorem slice_mid (a d r : List Byte) :
    slice (a ++ d ++ r) a.length (a.length + d.length) = d := by
  simp [slice, List.take_append, List.append_assoc]

theorem slice_zero_length (v : List Byte) (n : Nat) (h : v.length = n) : slice v 0 n = v := by
  subst h
  simp [slice]

theorem NextBytes_at (s a d r : List Byte) (o : Nat) (hs : s = a ++ d ++ r)
    (ho : o = a.length) (hlen : s.length < 2 ^ 64) :
    ZeroCopySource.NextBytes ⟨s, o⟩ d.length = (d, false, ⟨s, o + d.length⟩) := by
  subst hs ho
  have h1 : a.length + d.length ≤ (a ++ d ++ r).length := by simp
  have h2 : a.length + d.length < 2 ^ 64 := lt_of_le_of_lt h1 hlen
  have h3 : (a.length + d.length) % 2 ^ 64 = a.length + d.length := Nat.mod_eq_of_lt h2
  have h4 : ¬ (2 ^ 64 ≤ a.length + d.length) := not_le.mpr h2
  unfold ZeroCopySource.NextBytes
  simp only [h3, h4, decide_False, Bool.false_eq_true, false_or, not_lt.mpr h1, if_false,
    slice_mid]

theorem NextByte_at (s a r : List Byte) (b : Byte) (o : Nat) (hs : s = a ++ b :: r)
    (ho : o = a.length) :
    ZeroCopySource.NextByte ⟨s, o⟩ = (b, false, ⟨s, o + 1⟩) := by
  subst hs ho
  have h : (a ++ b :: r).get? a.length = some b := by
    rw [List.get?_eq_getElem?, List.getElem?_append_right (le_refl _)]
    simp
  simp only [ZeroCopySource.NextByte, h]

theorem NextByte_end (s : List Byte) (o : Nat) (ho : o = s.length) :
    ZeroCopySource.NextByte ⟨s, o⟩ = (0, true, ⟨s, o⟩) := by
  subst ho
  have h : s.get? s.length = none := by simp
  simp only [ZeroCopySource.NextByte, h]

theorem NextUintLE_at (s a r : List Byte) (o w n : Nat) (hs : s = a ++ leBytes w n ++ r)
    (ho : o = a.length) (hlen : s.length < 2 ^ 64) :
    ZeroCopySource.NextUintLE ⟨s, o⟩ w = (n % 256 ^ w, false, ⟨s, o + w⟩) := by
  have h := NextBytes_at s a (leBytes w n) r o hs ho hlen
  rw [leBytes_length] at h
  simp only [ZeroCopySource.NextUintLE, h, leNat_leBytes]

theorem WriteVarUint_length_pos (n : Nat) : 0 < (WriteVarUint n).length := by
  unfold WriteVarUint
  split_ifs <;> simp

theorem NextVarUint_at (s a r : List Byte) (o n : Nat) (hs : s = a ++ WriteVarUint n ++ r)
    (ho : o = a.length) (hn : n < 2 ^ 64) (hlen : s.length < 2 ^ 64) :
    ZeroCopySource.NextVarUint ⟨s, o⟩ = (n, false, ⟨s, o + (WriteVarUint n).length⟩) := by
  unfold WriteVarUint at hs ⊢
  split_ifs at hs ⊢ with h1 h2 h3
  · have hb : (byteOf n).val = n := by simp only [byteOf]; omega
    have hnb := NextByte_at s a r (byteOf n) o (by simpa using hs) ho
    have e1 : ¬ n = 0xFD := by omega
    have e2 : ¬ n = 0xFE := by omega
    have e3 : ¬ n = 0xFF := by omega
    simp only [ZeroCopySource.NextVarUint, hnb, hb, e1, e2, e3, if_false, List.length_singleton]
  · have hnb := NextByte_at s a (leBytes 2 n ++ r) 0xFD o (by simpa using hs) ho
    have hu := NextUintLE_at s (a ++ [0xFD]) r (o + 1) 2 n (by simpa using hs) (by simp [ho]) hlen
    have hm : n % 256 ^ 2 = n := Nat.mod_eq_of_lt (by omega)
    have hv : ((0xFD : Byte) : Nat) = 0xFD := rfl
    simp only [ZeroCopySource.NextVarUint, hnb, hv, if_true, ZeroCopySource.NextUint16, hu, hm,
      List.length_cons, leBytes_length, Nat.add_assoc]
  · have hnb := NextByte_at s a (leBytes 4 n ++ r) 0xFE o (by simpa using hs) ho
    have hu := NextUintLE_at s (a ++ [0xFE]) r (o + 1) 4 n (by simpa using hs) (by simp [ho]) hlen
    have hm : n % 256 ^ 4 = n := Nat.mod_eq_of_lt (by omega)
    have hv : ((0xFE : Byte) : Nat) = 0xFE := rfl
    have e1 : ¬ (0xFE : Nat) = 0xFD := by decide
    simp only [ZeroCopySource.NextVarUint, hnb, hv, e1, if_true, if_false,
      ZeroCopySource.NextUint32, hu, hm, List.length_cons, leBytes_length, Nat.add_assoc]
  · have hnb := NextByte_at s a (leBytes 8 n ++ r) 0xFF o (by simpa using hs) ho
    have hu := NextUintLE_at s (a ++ [0xFF]) r (o + 1) 8 n (by simpa using hs) (by simp [ho]) hlen
    have hm : n % 256 ^ 8 = n := Nat.mod_eq_of_lt (by omega)
    have hv : ((0xFF : Byte) : Nat) = 0xFF := rfl
    have e1 : ¬ (0xFF : Nat) = 0xFD := by decide
    have e2 : ¬ (0xFF : Nat) = 0xFE := by decide
    simp only [ZeroCopySource.NextVarUint, hnb, hv, e1, e2, if_true, if_false,
      ZeroCopySource.NextUint64, hu, hm, List.length_cons, leBytes_length, Nat.add_assoc]

theorem NextVarBytes_at (s a v r : List Byte) (o : Nat) (hs : s = a ++ WriteVarBytes v ++ r)
    (ho : o = a.length) (hlen : s.length < 2 ^ 64) :
    ZeroCopySource.NextVarBytes ⟨s, o⟩ = (v, false, ⟨s, o + (WriteVarBytes v).length⟩) := by
  have hv : v.length < 2 ^ 64 := by
    have : v.length ≤ s.length := by
      subst hs
      simp only [WriteVarBytes, List.length_append]
      omega
    omega
  have h1 := NextVarUint_at s a (v ++ r) o v.length
    (by simpa [WriteVarBytes, List.append_assoc] using hs) ho hv hlen
  have h2 := NextBytes_at s (a ++ WriteVarUint v.length) v r (o + (WriteVarUint v.length).length)
    (by simpa [WriteVarBytes, List.append_assoc] using hs) (by simp [ho]) hlen
  simp only [ZeroCopySource.NextVarBytes, h1, h2, WriteVarBytes, List.length_append,
    Nat.add_assoc]

theorem pairs_flatten_length (pairs : List (Byte × List Byte))
    (hp : ∀ p ∈ pairs, p.2.length = 32) :
    ((pairs.map (fun p => p.1 :: p.2)).flatten).length = 33 * pairs.length := by
  induction pairs with
  | nil => rfl
  | cons p ps ih =>
    have h1 := hp p (List.mem_cons_self _ _)
    have h2 := ih (fun q hq => hp q (List.mem_cons_of_mem _ hq))
    simp only [List.map_cons, List.flatten_cons, List.length_append, List.length_cons, h1, h2]
    omega

theorem parseAuditLoop_pairs (pairs : List (Byte × List Byte))
    (hp : ∀ p ∈ pairs, p.2.length = 32) :
    ∀ (k : Nat) (s a : List Byte) (o : Nat) (pos : List Byte) (hashes : List (List Byte)),
      s = a ++ (pairs.map (fun p => p.1 :: p.2)).flatten → o = a.length →
      s.length < 2 ^ 64 → pairs.length ≤ k →
      parseAuditLoop k ⟨s, o⟩ pos hashes
        = (pos ++ pairs.map Prod.fst, hashes ++ pairs.map Prod.snd) := by
  induction pairs with
  | nil =>
    intro k s a o pos hashes hs ho _ _
    have ho2 : o = s.length := by simp [hs, ho]
    cases k with
    | zero => simp [parseAuditLoop]
    | succ k => simp [parseAuditLoop, NextByte_end s o ho2]
  | cons p ps ih =>
    intro k s a o pos hashes hs ho hlen hk
    have h32 := hp p (List.mem_cons_self _ _)
    have hps := fun q hq => hp q (List.mem_cons_of_mem _ hq)
    cases k with
    | zero => simp at hk
    | succ k =>
      have hb := NextByte_at s a (p.2 ++ (ps.map (fun p => p.1 :: p.2)).flatten) p.1 o
        (by simpa using hs) ho
      have hh := NextBytes_at s (a ++ [p.1]) p.2 ((ps.map (fun p => p.1 :: p.2)).flatten)
        (o + 1) (by simpa using hs) (by simp [ho]) hlen
      rw [h32] at hh
      have hrec := ih hps k s (a ++ p.1 :: p.2) (o + 1 + 32) (pos ++ [p.1]) (hashes ++ [p.2])
        (by simpa using hs) (by simp [ho, h32, Nat.add_assoc]) hlen
        (by simpa using hk)
      simp only [parseAuditLoop, hb, ZeroCopySource.NextHash, UINT256_SIZE, hh,
        slice_zero_length p.2 32 h32, hrec]
      simp

/-- Claim C2. Decode undoes encode: for every leaf value and every list of `n`
pairs of a direction byte and a 32-byte hash, for every `n` (also `n >= 32`),
`ParseAuditPath` decodes the wire encoding (the var-uint length prefix, the
value, then the pairs in order) to exactly the value, the direction bytes in
order and the hashes in order, with no error. The encoding is shorter than
`2^64` bytes, as every Go slice is. -/
theorem ParseAuditPath_encode (value : List Byte) (pairs : List (Byte × List Byte))
    (hp : ∀ p ∈ pairs, p.2.length = 32)
    (hlen : (encodeAuditPath value pairs).length < 2 ^ 64) :
    ParseAuditPath (encodeAuditPath value pairs)
      = ⟨value, pairs.map Prod.fst, pairs.map Prod.snd, none⟩ := by
  have hv := NextVarBytes_at (encodeAuditPath value pairs) [] value
    ((pairs.map (fun p => p.1 :: p.2)).flatten) 0 (by simp [encodeAuditPath]) rfl hlen
  have hfl := pairs_flatten_length pairs hp
  have hsize : pairs.length ≤
      ((encodeAuditPath value pairs).length - (0 + (WriteVarBytes value).length)) / 32 := by
    simp only [encodeAuditPath, List.length_append, hfl]
    omega
  have hloop := parseAuditLoop_pairs pairs hp
    (((encodeAuditPath value pairs).length - (0 + (WriteVarBytes value).length)) / 32)
    (encodeAuditPath value pairs) (WriteVarBytes value) (0 + (WriteVarBytes value).length) [] []
    rfl (by simp) hlen hsize
  simp only [ParseAuditPath, NewZeroCopySource, hv, ZeroCopySource.Size, ZeroCopySource.Pos,
    UINT256_SIZE, hloop, List.nil_append]

/-- Witness of claim C2: a three-byte value followed by 33 pairs. -/
theorem ParseAuditPath_encode_witness :
    (encodeAuditPath [1, 2, 3] (List.replicate 33 (1, List.replicate 32 7))).length < 2 ^ 64 ∧
    ParseAuditPath (encodeAuditPath [1, 2, 3] (List.replicate 33 (1, List.replicate 32 7)))
      = ⟨[1, 2, 3], (List.replicate 33 ((1 : Byte), List.replicate 32 (7 : Byte))).map Prod.fst,
          (List.replicate 33 ((1 : Byte), List.replicate 32 (7 : Byte))).map Prod.snd, none⟩ :=
  ⟨by decide,
    ParseAuditPath_encode [1, 2, 3] (List.replicate 33 (1, List.replicate 32 7))
      (fun p hp => by rw [List.eq_of_mem_replicate hp]; rfl) (by decide)⟩

/-! ## The curve label and the native key encoding -/

theorem GetCurveLabel_cases (x : Extern) (s : String) :
    GetCurveLabel x s = (1, none) ∨ GetCurveLabel x s = (2, none) ∨
    GetCurveLabel x s = (3, none) ∨ GetCurveLabel x s = (4, none) ∨
    GetCurveLabel x s = (20, none) ∨ GetCurveLabel x s = (5, none) ∨
    GetCurveLabel x s = (0, some ("GetCurveLabel: unknown labelname " ++ s)) := by
  unfold GetCurveLabel
  simp only []
  split_ifs <;> simp

/-- Claim C8. For every string `s`, `GetCurveLabel` returns with no error the
label 1, 2, 3, 4, 5 or 20 when `s` upper-cases to the upper-cased name of P-224,
P-256, P-384, P-521, secp256k1 or the SM2 curve respectively (the six upper-cased
names being distinct); for every other `s` it returns an error with label 0; and
it never returns label 0 with a nil error. -/
theorem GetCurveLabel_total (x : Extern) (hd : (curveNamesUpper x).Nodup) (s : String) :
    (x.ToUpper s = x.ToUpper x.P224Name → GetCurveLabel x s = (1, none)) ∧
    (x.ToUpper s = x.ToUpper x.P256Name → GetCurveLabel x s = (2, none)) ∧
    (x.ToUpper s = x.ToUpper x.P384Name → GetCurveLabel x s = (3, none)) ∧
    (x.ToUpper s = x.ToUpper x.P521Name → GetCurveLabel x s = (4, none)) ∧
    (x.ToUpper s = x.ToUpper x.S256Name → GetCurveLabel x s = (5, none)) ∧
    (x.ToUpper s = x.ToUpper x.SM2Name → GetCurveLabel x s = (20, none)) ∧
    (x.ToUpper s ∉ curveNamesUpper x →
      GetCurveLabel x s = (0, some ("GetCurveLabel: unknown labelname " ++ s))) ∧
    GetCurveLabel x s ≠ (0, none) := by
  simp only [curveNamesUpper, List.nodup_cons, List.mem_cons, List.mem_singleton, not_or,
    List.not_mem_nil, not_false_eq_true, List.nodup_nil, and_true] at hd
  obtain ⟨⟨h12, h13, h14, h15, h16⟩, ⟨h23, h24, h25, h26⟩, ⟨h34, h35, h36⟩, ⟨h45, h46⟩, h56⟩ := hd
  refine ⟨?_, ?_, ?_, ?_, ?_, ?_, ?_, ?_⟩
  · intro h
    simp [GetCurveLabel, h]
  · intro h
    simp [GetCurveLabel, h, Ne.symm h12]
  · intro h
    simp [GetCurveLabel, h, Ne.symm h13, Ne.symm h23]
  · intro h
    simp [GetCurveLabel, h, Ne.symm h14, Ne.symm h24, Ne.symm h34]
  · intro h
    simp [GetCurveLabel, h, Ne.symm h16, Ne.symm h26, Ne.symm h36, Ne.symm h46, Ne.symm h56]
  · intro h
    simp [GetCurveLabel, h, Ne.symm h15, Ne.symm h25, Ne.symm h35, Ne.symm h45]
  · intro h
    simp only [curveNamesUpper, List.mem_cons, List.mem_singleton, not_or, List.not_mem_nil,
      not_false_eq_true, and_true] at h
    obtain ⟨n1, n2, n3, n4, n5, n6⟩ := h
    simp [GetCurveLabel, n1, n2, n3, n4, n5, n6]
  · rcases GetCurveLabel_cases x s with h | h | h | h | h | h | h <;> rw [h] <;> simp

/-- Witness of claim C8 on the example instance: the six names are distinct
there, `SecP256K1` gets label 5 and `ed25519` is refused. -/
theorem GetCurveLabel_total_witness :
    (curveNamesUpper sampleExtern).Nodup ∧
    GetCurveLabel sampleExtern "SecP256K1" = (5, none) ∧
    GetCurveLabel sampleExtern "ed25519"
      = (0, some "GetCurveLabel: unknown labelname ed25519") :=
  ⟨by decide,
    (GetCurveLabel_total sampleExtern (by decide) "SecP256K1").2.2.2.2.1 (by decide),
    (GetCurveLabel_total sampleExtern (by decide) "ed25519").2.2.2.2.2.2.1 (by decide)⟩

theorem GetCurveLabel_P256Name (x : Extern) :
    (GetCurveLabel x x.P256Name).2 = none := by
  unfold GetCurveLabel
  simp only []
  split_ifs <;> simp_all

/-- Counterexample to claim C9 as stated: an ECDSA key whose curve name is
`p-256`, which equals the P-256 name up to letter case, is not encoded as the
bare point but with the prefix `0x12` and the label 2. -/
theorem EncodePubKey_P256_lowercase :
    asciiUpper "p-256" = asciiUpper sampleExtern.P256Name ∧
    EncodePubKey sampleExtern (.ec ⟨ECDSA, "p-256", 5, 6⟩)
      ≠ (sampleExtern.EncodePublicKey ⟨ECDSA, "p-256", 5, 6⟩ false, none) ∧
    EncodePubKey sampleExtern (.ec ⟨ECDSA, "p-256", 5, 6⟩)
      = ([0x12, 2] ++ sampleExtern.EncodePublicKey ⟨ECDSA, "p-256", 5, 6⟩ false, none) := by
  decide

/-- Claim C9, amended. For every elliptic-curve key `t`, `EncodePubKey` returns:
for an ECDSA key whose curve name is exactly the P-256 name, the uncompressed
point with no prefix; for an ECDSA key with any other name that has a label,
`0x12`, the label, the point; for an SM2 key whose name has a label, `0x13`, the
label, the point; and for a key whose curve name has no label, an error. -/
theorem EncodePubKey_ec (x : Extern) (t : ECPublicKey) :
    (t.Algorithm = ECDSA → t.Name = x.P256Name →
      EncodePubKey x (.ec t) = (x.EncodePublicKey t false, none)) ∧
    (t.Algorithm = ECDSA → t.Name ≠ x.P256Name →
      ∀ label, GetCurveLabel x t.Name = (label, none) →
        EncodePubKey x (.ec t)
          = ([0x12, byteOf label] ++ x.EncodePublicKey t false, none)) ∧
    (t.Algorithm = SM2 →
      ∀ label, GetCurveLabel x t.Name = (label, none) →
        EncodePubKey x (.ec t)
          = ([0x13, byteOf label] ++ x.EncodePublicKey t false, none)) ∧
    ((GetCurveLabel x t.Name).2 ≠ none → (EncodePubKey x (.ec t)).2 ≠ none) := by
  refine ⟨?_, ?_, ?_, ?_⟩
  · intro ha hn
    simp [EncodePubKey, ha, hn]
  · intro ha hn label hl
    simp [EncodePubKey, ha, hn, hl]
  · intro ha label hl
    have hne : ¬ (SM2 = ECDSA) := by decide
    simp [EncodePubKey, ha, hne, hl]
  · intro hl
    have hn : t.Name ≠ x.P256Name := by
      intro h
      rw [h] at hl
      exact hl (GetCurveLabel_P256Name x)
    rcases hg : GetCurveLabel x t.Name with ⟨label, e⟩
    rw [hg] at hl
    cases e with
    | none => exact absurd rfl hl
    | some e => simp [EncodePubKey, hn, hg]

/-! ## The keeper commitment -/

theorem leBytes_mod (k n : Nat) : leBytes k (n % 256 ^ k) = leBytes k n := by
  induction k generalizing n with
  | zero => rfl
  | succ k ih =>
    have h1 : n % 256 ^ (k + 1) % 256 = n % 256 :=
      Nat.mod_mod_of_dvd n (Dvd.intro_left (256 ^ k) rfl)
    have h2 : n % 256 ^ (k + 1) / 256 = n / 256 % 256 ^ k := by
      rw [pow_succ', Nat.mod_mul_right_div_self]
    simp only [leBytes, byteOf, h1, h2, ih]

theorem WriteUint64_mod (n : Nat) : WriteUint64 (n % 2 ^ 64) = WriteUint64 n := by
  have h : (2 : Nat) ^ 64 = 256 ^ 8 := by norm_num
  rw [WriteUint64, h, leBytes_mod]
  rfl

theorem slice_to_length (s : List Byte) (lo : Nat) : slice s lo s.length = s.drop lo := by
  simp [slice]

theorem EncodePubKey_supported (x : Extern) (key : PublicKey) (h : Supported x key) :
    EncodePubKey x key = ((EncodePubKey x key).1, none) := by
  obtain ⟨t, rfl, hl⟩ := h
  rcases hg : GetCurveLabel x t.Name with ⟨label, e⟩
  rw [hg] at hl
  simp only at hl
  subst hl
  unfold EncodePubKey
  simp only [hg]
  split_ifs <;> rfl

theorem EncodePubKey_ok_is_ec (x : Extern) (key : PublicKey) (b : List Byte)
    (h : EncodePubKey x key = (b, none)) : ∃ t, key = .ec t := by
  cases key with
  | ec t => exact ⟨t, rfl⟩
  | ed25519 t => simp [EncodePubKey] at h
  | other => simp [EncodePubKey] at h

theorem checkEpochLoop_supported (x : Extern) (hpt : ∀ t, x.FromECDSAPub t ≠ [])
    (hk : ∀ b, (x.Keccak256 b).length = 32) (keys : List PublicKey)
    (hs : ∀ key ∈ keys, Supported x key) :
    ∀ pubKeys sink, checkEpochLoop x keys pubKeys sink
      = (pubKeys ++ (keys.map (fun key => (EncodePubKey x key).1)).flatten,
          sink ++ (keys.map (fun key => WriteVarBytes (fingerprint x key))).flatten,
          none, none) := by
  induction keys with
  | nil => intro pubKeys sink; simp [checkEpochLoop]
  | cons key rest ih =>
    intro pubKeys sink
    have hsk := hs key (List.mem_cons_self _ _)
    have hE := EncodePubKey_supported x key hsk
    obtain ⟨t, rfl, _⟩ := hsk
    have hlen : ¬ (x.FromECDSAPub t).length < 1 := by
      have := List.length_pos.mpr (hpt t)
      omega
    have hk12 : ¬ (x.Keccak256 (List.drop 1 (x.FromECDSAPub t))).length < 12 := by
      rw [hk]; decide
    have hfp : fingerprint x (.ec t) = (x.Keccak256 (List.drop 1 (x.FromECDSAPub t))).drop 12 := by
      simp [fingerprint, EncodeEthPubKey, hk]
    unfold checkEpochLoop
    rw [hE]
    simp only [EncodeEthPubKey, hlen, if_false, slice_to_length, hk12,
      ih (fun k hk' => hs k (List.mem_cons_of_mem _ hk')), hfp, List.map_cons,
      List.flatten_cons, List.append_assoc]

theorem checkEpochLoop_ed25519 (x : Extern) (hpt : ∀ t, x.FromECDSAPub t ≠ [])
    (hk : ∀ b, (x.Keccak256 b).length = 32) (keys : List PublicKey)
    (hed : ∃ b, PublicKey.ed25519 b ∈ keys) :
    ∀ pubKeys sink, ∃ pubKeys1 sink1 e,
      checkEpochLoop x keys pubKeys sink = (pubKeys1, sink1, some e, none) := by
  induction keys with
  | nil => obtain ⟨b, hb⟩ := hed; simp at hb
  | cons key rest ih =>
    intro pubKeys sink
    rcases hE : EncodePubKey x key with ⟨bytes, e⟩
    cases e with
    | some e =>
      refine ⟨pubKeys, sink, e, ?_⟩
      unfold checkEpochLoop
      rw [hE]
    | none =>
      obtain ⟨t, rfl⟩ := EncodePubKey_ok_is_ec x key bytes hE
      have hrest : ∃ b, PublicKey.ed25519 b ∈ rest := by
        obtain ⟨b, hb⟩ := hed
        refine ⟨b, ?_⟩
        simpa using hb
      have hlen : ¬ (x.FromECDSAPub t).length < 1 := by
        have := List.length_pos.mpr (hpt t)
        omega
      have hk12 : ¬ (x.Keccak256 (List.drop 1 (x.FromECDSAPub t))).length < 12 := by
        rw [hk]; decide
      obtain ⟨p1, s1, e1, h1⟩ := ih hrest (pubKeys ++ bytes)
        (sink ++ WriteVarBytes
          (List.drop 12 (x.Keccak256 (List.drop 1 (x.FromECDSAPub t)))))
      refine ⟨p1, s1, e1, ?_⟩
      unfold checkEpochLoop
      rw [hE]
      simp only [EncodeEthPubKey, hlen, if_false, slice_to_length, hk12, h1]

/-- Claim C6. For a header with a non-empty next-keeper marker whose consensus
payload lists `n` keys of supported types, and a non-empty known commitment,
`CheckEpoch` returns no error, and `epoch = true` exactly when the known
commitment differs from the candidate: the 8-byte count `n`, then, for each key
in sorted order, the length-prefixed low-order 20 bytes of Keccak-256 of
`EncodeEthPubKey(key)` without its first byte. (The sort returns a permutation,
the point encoding is never empty and the digest has 32 bytes.) -/
theorem CheckEpoch_commitment (x : Extern) (tx : Tx) (hdr : Header) (info : VbftBlockInfo)
    (cfg : ChainConfig)
    (hkeep : tx.DstPolyKeepers ≠ [])
    (hmark : hdr.NextBookkeeper ≠ ADDRESS_EMPTY)
    (hinfo : x.Unmarshal hdr.ConsensusPayload = .ok info)
    (hcfg : info.NewChainConfig = some cfg)
    (hsup : ∀ key ∈ peerKeys x cfg.Peers, Supported x key)
    (hsort : ∀ l, (x.SortPublicKeys l).Perm l)
    (hpt : ∀ t, x.FromECDSAPub t ≠ [])
    (hk : ∀ b, (x.Keccak256 b).length = 32) :
    (CheckEpoch x tx hdr).err = none ∧ (CheckEpoch x tx hdr).fault = none ∧
    ((CheckEpoch x tx hdr).epoch = true ↔
      tx.DstPolyKeepers ≠ commitment x (x.SortPublicKeys (peerKeys x cfg.Peers))) ∧
    (x.SortPublicKeys (peerKeys x cfg.Peers)).length = cfg.Peers.length ∧
    (CheckEpoch x tx hdr).pubKeys
      = ((x.SortPublicKeys (peerKeys x cfg.Peers)).map
          (fun key => (EncodePubKey x key).1)).flatten := by
  have hs : ∀ key ∈ x.SortPublicKeys (peerKeys x cfg.Peers), Supported x key :=
    fun key hkey => hsup key ((hsort _).mem_iff.mp hkey)
  have hloop := checkEpochLoop_supported x hpt hk _ hs []
    (WriteUint64 ((x.SortPublicKeys (peerKeys x cfg.Peers)).length % 2 ^ 64))
  have hlen0 : ¬ tx.DstPolyKeepers.length = 0 := by
    simpa [List.length_eq_zero] using hkeep
  have hlenp : (x.SortPublicKeys (peerKeys x cfg.Peers)).length = cfg.Peers.length := by
    rw [(hsort _).length_eq]
    simp [peerKeys]
  have hres : CheckEpoch x tx hdr
      = ⟨decide (tx.DstPolyKeepers ≠ commitment x (x.SortPublicKeys (peerKeys x cfg.Peers))),
          ((x.SortPublicKeys (peerKeys x cfg.Peers)).map
            (fun key => (EncodePubKey x key).1)).flatten, none, none⟩ := by
    rw [WriteUint64_mod] at hloop
    simp only [CheckEpoch, hlen0, if_false, hmark, hinfo, hcfg, WriteUint64_mod, hloop,
      List.nil_append, commitment]
  rw [hres]
  exact ⟨rfl, rfl, by simp, hlenp, rfl⟩

/-- Witness of claim C6 on the example instance: two secp256k1 keepers and the
known commitment `[1]`, which differs from the candidate. -/
theorem CheckEpoch_commitment_witness :
    (CheckEpoch sampleExtern sampleTx ⟨81, List.replicate 20 1, [1], []⟩).err = none ∧
    ((CheckEpoch sampleExtern sampleTx ⟨81, List.replicate 20 1, [1], []⟩).epoch = true ↔
      sampleTx.DstPolyKeepers ≠ commitment sampleExtern
        (sampleExtern.SortPublicKeys
          (peerKeys sampleExtern [⟨1, "0107"⟩, ⟨2, "0103"⟩]))) :=
  have h := CheckEpoch_commitment sampleExtern sampleTx ⟨81, List.replicate 20 1, [1], []⟩
    ⟨some ⟨[⟨1, "0107"⟩, ⟨2, "0103"⟩]⟩⟩ ⟨[⟨1, "0107"⟩, ⟨2, "0103"⟩]⟩
    (by decide) (by decide) rfl rfl
    (by
      intro key hkey
      have hkey2 : key = .ec ⟨ECDSA, "secp256k1", 7, 1⟩ ∨ key = .ec ⟨ECDSA, "secp256k1", 3, 1⟩ := by
        have : peerKeys sampleExtern [⟨1, "0107"⟩, ⟨2, "0103"⟩]
            = [.ec ⟨ECDSA, "secp256k1", 7, 1⟩, .ec ⟨ECDSA, "secp256k1", 3, 1⟩] := by decide
        rw [this] at hkey
        simpa using hkey
      rcases hkey2 with rfl | rfl
      · exact ⟨_, rfl, by decide⟩
      · exact ⟨_, rfl, by decide⟩)
    (fun l => List.perm_insertionSort _ l)
    (fun t => by simp [sampleExtern, samplePoint])
    (fun b => by simp [sampleExtern, sampleDigest, leBytes_length])
  ⟨h.1, h.2.2.1⟩

/-- Claim C7. For a header with a non-empty next-keeper marker, a non-empty known
commitment and a decoded validator set that contains at least one Ed25519 key,
at any position, `CheckEpoch` returns an error and `epoch = false`: no
commitment is compared. (The sort returns a permutation, the point encoding is
never empty and the digest has 32 bytes.) -/
theorem CheckEpoch_ed25519 (x : Extern) (tx : Tx) (hdr : Header) (info : VbftBlockInfo)
    (cfg : ChainConfig)
    (hkeep : tx.DstPolyKeepers ≠ [])
    (hmark : hdr.NextBookkeeper ≠ ADDRESS_EMPTY)
    (hinfo : x.Unmarshal hdr.ConsensusPayload = .ok info)
    (hcfg : info.NewChainConfig = some cfg)
    (hed : ∃ b, PublicKey.ed25519 b ∈ peerKeys x cfg.Peers)
    (hsort : ∀ l, (x.SortPublicKeys l).Perm l)
    (hpt : ∀ t, x.FromECDSAPub t ≠ [])
    (hk : ∀ b, (x.Keccak256 b).length = 32) :
    (CheckEpoch x tx hdr).err ≠ none ∧ (CheckEpoch x tx hdr).epoch = false ∧
    (CheckEpoch x tx hdr).fault = none := by
  have hed2 : ∃ b, PublicKey.ed25519 b ∈ x.SortPublicKeys (peerKeys x cfg.Peers) := by
    obtain ⟨b, hb⟩ := hed
    exact ⟨b, (hsort _).mem_iff.mpr hb⟩
  obtain ⟨p1, s1, e1, h1⟩ := checkEpochLoop_ed25519 x hpt hk _ hed2 []
    (WriteUint64 ((x.SortPublicKeys (peerKeys x cfg.Peers)).length % 2 ^ 64))
  have hlen0 : ¬ tx.DstPolyKeepers.length = 0 := by
    simpa [List.length_eq_zero] using hkeep
  have hres : CheckEpoch x tx hdr = ⟨false, p1, some e1, none⟩ := by
    simp only [CheckEpoch, hlen0, if_false, hmark, hinfo, hcfg, h1]
  rw [hres]
  exact ⟨by simp, rfl, rfl⟩

/-- Witness of claim C7 on the example instance: the payload `[2]` lists a
secp256k1 key and an Ed25519 key. -/
theorem CheckEpoch_ed25519_witness :
    (CheckEpoch sampleExtern sampleTx ⟨81, List.replicate 20 1, [2], []⟩).err ≠ none ∧
    (CheckEpoch sampleExtern sampleTx ⟨81, List.replicate 20 1, [2], []⟩).epoch = false ∧
    (CheckEpoch sampleExtern sampleTx ⟨81, List.replicate 20 1, [2], []⟩).fault = none :=
  CheckEpoch_ed25519 sampleExtern sampleTx ⟨81, List.replicate 20 1, [2], []⟩
    ⟨some ⟨[⟨1, "0107"⟩, ⟨2, "00aa"⟩]⟩⟩ ⟨[⟨1, "0107"⟩, ⟨2, "00aa"⟩]⟩
    (by decide) (by decide) rfl rfl
    ⟨[170], by decide⟩
    (fun l => List.perm_insertionSort _ l)
    (fun t => by simp [sampleExtern, samplePoint])
    (fun b => by simp [sampleExtern, sampleDigest, leBytes_length])

/-! ## The steps of a composition -/

theorem fetches_append (a b : List Step) : fetches (a ++ b) = fetches a ++ fetches b := by
  simp [fetches]

theorem epochChecks_append (a b : List Step) :
    epochChecks (a ++ b) = epochChecks a ++ epochChecks b := by
  simp [epochChecks]

theorem notifyLoop_fetches (x : Extern) (node : Node) (height : Nat)
    (ns : List NotifyEventInfo) :
    ∀ param path steps,
      fetches (notifyLoop x node height ns param path steps).steps = fetches steps ∧
      epochChecks (notifyLoop x node height ns param path steps).steps = epochChecks steps := by
  induction ns with
  | nil => intro param path steps; simp [notifyLoop]
  | cons n rest ih =>
    intro param path steps
    unfold notifyLoop
    simp only []
    repeat' split
    all_goals
      first
        | exact ih _ _ _
        | (rw [(ih _ _ _).1, (ih _ _ _).2]
           simp [fetches, epochChecks])
        | simp [fetches, epochChecks]

theorem GetPolyParams_fetches (x : Extern) (node : Node) (tx : Tx) :
    fetches (GetPolyParams x node tx).steps = [] ∧
    epochChecks (GetPolyParams x node tx).steps = [] := by
  unfold GetPolyParams
  simp only []
  repeat' split
  all_goals
    first
      | (rw [(notifyLoop_fetches _ _ _ _ _ _ _).1, (notifyLoop_fetches _ _ _ _ _ _ _).2]
         simp [fetches, epochChecks])
      | simp [fetches, epochChecks]

theorem composeValue_fields (x : Extern) (node : Node) (tx : Tx) (ah : Nat)
    (a : Option Header) (hp : String) (steps : List Step) :
    (composeValue x node tx ah a hp steps).anchorHeight = ah ∧
    (composeValue x node tx ah a hp steps).anchor = a ∧
    (composeValue x node tx ah a hp steps).hp = hp ∧
    (composeValue x node tx ah a hp steps).steps = steps ++ (GetPolyParams x node tx).steps := by
  unfold composeValue
  simp only []
  split
  · simp
  · split <;> simp

theorem composeValue_fetches (x : Extern) (node : Node) (tx : Tx) (ah : Nat)
    (a : Option Header) (hp : String) (steps : List Step) :
    fetches (composeValue x node tx ah a hp steps).steps = fetches steps ∧
    epochChecks (composeValue x node tx ah a hp steps).steps = epochChecks steps := by
  rw [(composeValue_fields x node tx ah a hp steps).2.2.2, fetches_append, epochChecks_append,
    (GetPolyParams_fetches x node tx).1, (GetPolyParams_fetches x node tx).2]
  simp

theorem composeFetch_fetches (x : Extern) (node : Node) (tx : Tx) (ah : Nat)
    (steps : List Step) (hpos : 0 < ah) :
    (composeFetch x node tx ah steps).anchorHeight = ah ∧
    epochChecks (composeFetch x node tx ah steps).steps = epochChecks steps ∧
    fetches (composeFetch x node tx ah steps).steps
      = fetches steps ++ [Step.GetHeaderByHeight ah] ++
          (match node.GetHeaderByHeight ah with
            | .ok _ => [Step.GetMerkleProof (u32 (tx.PolyHeight + 1)) ah]
            | .error _ => []) := by
  unfold composeFetch
  simp only [hpos, if_true]
  cases hgh : node.GetHeaderByHeight ah with
  | error e => simp [fetches_append, epochChecks_append, fetches, epochChecks]
  | ok a =>
    cases hmp : node.GetMerkleProof (u32 (tx.PolyHeight + 1)) ah with
    | error e => simp [fetches_append, epochChecks_append, fetches, epochChecks]
    | ok p =>
      simp only []
      rw [(composeValue_fetches _ _ _ _ _ _ _).1, (composeValue_fetches _ _ _ _ _ _ _).2,
        (composeValue_fields _ _ _ _ _ _ _).1]
      simp [fetches_append, epochChecks_append, fetches, epochChecks]

theorem composeFetch_zero (x : Extern) (node : Node) (tx : Tx) (steps : List Step) :
    (composeFetch x node tx 0 steps).anchorHeight = 0 ∧
    (composeFetch x node tx 0 steps).anchor = none ∧
    (composeFetch x node tx 0 steps).hp = "" ∧
    epochChecks (composeFetch x node tx 0 steps).steps = epochChecks steps ∧
    fetches (composeFetch x node tx 0 steps).steps = fetches steps := by
  unfold composeFetch
  simp only [lt_irrefl, if_false]
  exact ⟨(composeValue_fields _ _ _ _ _ _ _).1, (composeValue_fields _ _ _ _ _ _ _).2.1,
    (composeValue_fields _ _ _ _ _ _ _).2.2.1, (composeValue_fetches _ _ _ _ _ _ _).2,
    (composeValue_fetches _ _ _ _ _ _ _).1⟩

theorem ComposeTx_known_height (x : Extern) (node : Node) (tx : Tx) (hdr : Header)
    (hhash : tx.PolyHash ≠ "") (hdst : tx.DstPolyEpochStartHeight ≠ 0)
    (hpos : tx.PolyHeight ≠ 0) (hrep : tx.PolyHeight + 1 < 2 ^ 32)
    (hhdr : node.GetHeaderByHeight (tx.PolyHeight + 1) = .ok hdr) :
    ComposeTx x node tx
      = composeAnchor x node tx hdr [Step.GetHeaderByHeight (tx.PolyHeight + 1)] := by
  have hu : u32 (tx.PolyHeight + 1) = tx.PolyHeight + 1 := Nat.mod_eq_of_lt hrep
  unfold ComposeTx
  simp only [hhash, hdst, hpos, if_false, hu, hhdr, List.nil_append]

/-- Claim C3, evaluated at the largest epoch-start height. The record has a
non-empty relay hash, relay height 80 and epoch-start height `4294967295`, both
32-bit heights with `80 < 4294967295`. The `uint32` sum
`DstPolyEpochStartHeight + 1` wraps to 0, the value that the test
`anchorHeight > 0` reads as no anchor: the anchor height is 0 instead of
`4294967296`, the only header requested is the relay header 81, no Merkle proof
is requested, and the run succeeds. -/
theorem ComposeTx_anchor_wraps :
    sampleTxMax.PolyHash ≠ "" ∧
    sampleTxMax.PolyHeight < sampleTxMax.DstPolyEpochStartHeight ∧
    sampleTxMax.DstPolyEpochStartHeight < 2 ^ 32 ∧
    (ComposeTx sampleExtern sampleNode sampleTxMax).anchorHeight = 0 ∧
    fetches (ComposeTx sampleExtern sampleNode sampleTxMax).steps
      = [Step.GetHeaderByHeight 81] ∧
    (ComposeTx sampleExtern sampleNode sampleTxMax).err = none := by
  decide

theorem ComposeTx_resolved_height (x : Extern) (node : Node) (tx : Tx) (hdr : Header)
    (hhash : tx.PolyHash ≠ "") (hdst : tx.DstPolyEpochStartHeight ≠ 0)
    (hres : tx.PolyHeight = 0 → (node.GetBlockHeightByTxHash tx.PolyHash).2 = none)
    (hrep : relayHeight node tx + 1 < 2 ^ 32)
    (hhdr : node.GetHeaderByHeight (relayHeight node tx + 1) = .ok hdr) :
    ComposeTx x node tx
      = composeAnchor x node { tx with PolyHeight := relayHeight node tx } hdr
          ((if tx.PolyHeight = 0 then [Step.GetBlockHeightByTxHash tx.PolyHash] else []) ++
            [Step.GetHeaderByHeight (relayHeight node tx + 1)]) := by
  have hu : u32 (relayHeight node tx + 1) = relayHeight node tx + 1 := Nat.mod_eq_of_lt hrep
  have hrh : (if tx.PolyHeight = 0 then node.GetBlockHeightByTxHash tx.PolyHash
      else (tx.PolyHeight, none)).1 = relayHeight node tx := by
    unfold relayHeight
    split_ifs <;> rfl
  have hr2 : (if tx.PolyHeight = 0 then node.GetBlockHeightByTxHash tx.PolyHash
      else (tx.PolyHeight, none)).2 = none := by
    split_ifs with h0
    · exact hres h0
    · rfl
  unfold ComposeTx
  simp only [hhash, hdst, if_false, hrh, hr2, hu, hhdr]

/-- Away from the wrap of claim C3. For a record with a non-empty relay hash
whose relay height (the one of the record or, when that is 0, the one resolved
from the hash) is below `destChainEpochStartHeight`, with
`destChainEpochStartHeight + 1` representable in 32 bits, once the header at
`relayHeight + 1` is fetched `ComposeTx` computes the anchor height
`destChainEpochStartHeight + 1`, requests the anchor header at that height and,
when that header arrives, the Merkle proof for the span
`[relayHeight + 1, destChainEpochStartHeight + 1]`, and never calls `CheckEpoch`. -/
theorem ComposeTx_epoch_not_seen (x : Extern) (node : Node) (tx : Tx) (hdr : Header)
    (hhash : tx.PolyHash ≠ "")
    (hres : tx.PolyHeight = 0 → (node.GetBlockHeightByTxHash tx.PolyHash).2 = none)
    (hlt : relayHeight node tx < tx.DstPolyEpochStartHeight)
    (hrep : tx.DstPolyEpochStartHeight + 1 < 2 ^ 32)
    (hhdr : node.GetHeaderByHeight (relayHeight node tx + 1) = .ok hdr) :
    (ComposeTx x node tx).anchorHeight = tx.DstPolyEpochStartHeight + 1 ∧
    epochChecks (ComposeTx x node tx).steps = [] ∧
    fetches (ComposeTx x node tx).steps
      = [Step.GetHeaderByHeight (relayHeight node tx + 1),
          Step.GetHeaderByHeight (tx.DstPolyEpochStartHeight + 1)] ++
        (match node.GetHeaderByHeight (tx.DstPolyEpochStartHeight + 1) with
          | .ok _ =>
            [Step.GetMerkleProof (relayHeight node tx + 1) (tx.DstPolyEpochStartHeight + 1)]
          | .error _ => []) := by
  have hk := ComposeTx_resolved_height x node tx hdr hhash (by omega) hres (by omega) hhdr
  have hu : u32 (tx.DstPolyEpochStartHeight + 1) = tx.DstPolyEpochStartHeight + 1 :=
    Nat.mod_eq_of_lt hrep
  have hu1 : u32 (relayHeight node tx + 1) = relayHeight node tx + 1 :=
    Nat.mod_eq_of_lt (by omega)
  have hf := composeFetch_fetches x node { tx with PolyHeight := relayHeight node tx }
    (tx.DstPolyEpochStartHeight + 1)
    ((if tx.PolyHeight = 0 then [Step.GetBlockHeightByTxHash tx.PolyHash] else []) ++
      [Step.GetHeaderByHeight (relayHeight node tx + 1)]) (by omega)
  have hsteps : fetches
      ((if tx.PolyHeight = 0 then [Step.GetBlockHeightByTxHash tx.PolyHash] else []) ++
        [Step.GetHeaderByHeight (relayHeight node tx + 1)])
      = [Step.GetHeaderByHeight (relayHeight node tx + 1)] := by
    split_ifs <;> simp [fetches]
  have hchecks : epochChecks
      ((if tx.PolyHeight = 0 then [Step.GetBlockHeightByTxHash tx.PolyHash] else []) ++
        [Step.GetHeaderByHeight (relayHeight node tx + 1)]) = [] := by
    split_ifs <;> simp [epochChecks]
  rw [hk]
  unfold composeAnchor
  simp only [hlt, if_true, hu]
  simp only [hu1, hsteps, hchecks] at hf
  exact ⟨hf.1, hf.2.1, hf.2.2⟩

/-- Two runs of the lemma above on the example node: relay height 80 with
epoch-start height 90 gives the anchor height 91, and so does a record whose
relay height is unknown and resolved to 80. -/
theorem ComposeTx_epoch_not_seen_witness :
    (ComposeTx sampleExtern sampleNode { sampleTx with DstPolyEpochStartHeight := 90 }).anchorHeight
      = 91 ∧
    fetches
      (ComposeTx sampleExtern sampleNode { sampleTx with DstPolyEpochStartHeight := 90 }).steps
      = [Step.GetHeaderByHeight 81, Step.GetHeaderByHeight 91, Step.GetMerkleProof 81 91] ∧
    (ComposeTx sampleExtern sampleNode
      { sampleTxUnknown with DstPolyEpochStartHeight := 90 }).anchorHeight = 91 :=
  have h1 := ComposeTx_epoch_not_seen sampleExtern sampleNode
    { sampleTx with DstPolyEpochStartHeight := 90 } ⟨81, List.replicate 20 1, [1], []⟩
    (by decide) (by decide) (by decide) (by decide) rfl
  have h2 := ComposeTx_epoch_not_seen sampleExtern sampleNode
    { sampleTxUnknown with DstPolyEpochStartHeight := 90 } ⟨81, List.replicate 20 1, [1], []⟩
    (by decide) (by decide) (by decide) (by decide) rfl
  ⟨h1.1, h1.2.2, h2.1⟩

theorem ComposeTx_epoch_seen_of_header (x : Extern) (node : Node) (tx : Tx) (hdr : Header)
    (hhash : tx.PolyHash ≠ "") (hdst : 0 < tx.DstPolyEpochStartHeight)
    (hge : tx.DstPolyEpochStartHeight ≤ tx.PolyHeight)
    (hrep : tx.PolyHeight + 2 < 2 ^ 32)
    (hhdr : node.GetHeaderByHeight (tx.PolyHeight + 1) = .ok hdr)
    (herr : (CheckEpoch x tx hdr).err = none)
    (hfault : (CheckEpoch x tx hdr).fault = none) :
    epochChecks (ComposeTx x node tx).steps = [Step.CheckEpoch hdr] ∧
    ((CheckEpoch x tx hdr).epoch = false →
      (ComposeTx x node tx).anchorHeight = 0 ∧ (ComposeTx x node tx).anchor = none ∧
      (ComposeTx x node tx).hp = "" ∧
      fetches (ComposeTx x node tx).steps = [Step.GetHeaderByHeight (tx.PolyHeight + 1)]) ∧
    ((CheckEpoch x tx hdr).epoch = true →
      (ComposeTx x node tx).anchorHeight = tx.PolyHeight + 2 ∧
      fetches (ComposeTx x node tx).steps
        = [Step.GetHeaderByHeight (tx.PolyHeight + 1),
            Step.GetHeaderByHeight (tx.PolyHeight + 2)] ++
          (match node.GetHeaderByHeight (tx.PolyHeight + 2) with
            | .ok _ => [Step.GetMerkleProof (tx.PolyHeight + 1) (tx.PolyHeight + 2)]
            | .error _ => [])) := by
  have hk := ComposeTx_known_height x node tx hdr hhash (by omega) (by omega) (by omega) hhdr
  have hu : u32 (tx.PolyHeight + 2) = tx.PolyHeight + 2 := Nat.mod_eq_of_lt hrep
  have hu1 : u32 (tx.PolyHeight + 1) = tx.PolyHeight + 1 := Nat.mod_eq_of_lt (by omega)
  have hnlt : ¬ tx.PolyHeight < tx.DstPolyEpochStartHeight := by omega
  rw [hk]
  unfold composeAnchor
  simp only [hnlt, if_false, herr, hfault, hu]
  cases hep : (CheckEpoch x tx hdr).epoch with
  | false =>
    have hz := composeFetch_zero x node tx
      ([Step.GetHeaderByHeight (tx.PolyHeight + 1)] ++ [Step.CheckEpoch hdr])
    simp only [Bool.false_eq_true, if_false]
    refine ⟨?_, ?_, ?_⟩
    · rw [hz.2.2.2.1]; rfl
    · intro _
      refine ⟨hz.1, hz.2.1, hz.2.2.1, ?_⟩
      rw [hz.2.2.2.2]; rfl
    · intro h; exact absurd h (by simp)
  | true =>
    have hf := composeFetch_fetches x node tx (tx.PolyHeight + 2)
      ([Step.GetHeaderByHeight (tx.PolyHeight + 1)] ++ [Step.CheckEpoch hdr]) (by omega)
    rw [hu1] at hf
    simp only [if_true]
    refine ⟨?_, ?_, ?_⟩
    · rw [hf.2.1]; rfl
    · intro h; exact absurd h (by simp)
    · intro _
      refine ⟨hf.1, ?_⟩
      rw [hf.2.2]; rfl

theorem composeFetch_epochChecks (x : Extern) (node : Node) (tx : Tx) (ah : Nat)
    (steps : List Step) :
    epochChecks (composeFetch x node tx ah steps).steps = epochChecks steps := by
  rcases Nat.eq_zero_or_pos ah with h | h
  · subst h
    exact (composeFetch_zero x node tx steps).2.2.2.1
  · exact (composeFetch_fetches x node tx ah steps h).2.1

theorem composeAnchor_epochChecks (x : Extern) (node : Node) (tx : Tx) (hdr : Header)
    (steps : List Step) (hge : ¬ tx.PolyHeight < tx.DstPolyEpochStartHeight) :
    epochChecks (composeAnchor x node tx hdr steps).steps
      = epochChecks steps ++ [Step.CheckEpoch hdr] := by
  unfold composeAnchor
  simp only [hge, if_false]
  cases (CheckEpoch x tx hdr).fault with
  | some f => simp [epochChecks]
  | none =>
    cases (CheckEpoch x tx hdr).err with
    | some e => simp [epochChecks]
    | none =>
      simp only []
      rw [composeFetch_epochChecks]
      simp [epochChecks]

theorem ComposeTx_checked_header (x : Extern) (node : Node) (tx : Tx) (hdr : Header)
    (hdst : 0 < tx.DstPolyEpochStartHeight)
    (hge : tx.DstPolyEpochStartHeight ≤ tx.PolyHeight)
    (hrep : tx.PolyHeight + 2 < 2 ^ 32)
    (hcall : Step.CheckEpoch hdr ∈ (ComposeTx x node tx).steps) :
    tx.PolyHash ≠ "" ∧ node.GetHeaderByHeight (tx.PolyHeight + 1) = .ok hdr := by
  have hu : u32 (tx.PolyHeight + 1) = tx.PolyHeight + 1 := Nat.mod_eq_of_lt (by omega)
  have hd0 : tx.DstPolyEpochStartHeight ≠ 0 := by omega
  have hp0 : tx.PolyHeight ≠ 0 := by omega
  by_cases hhash : tx.PolyHash = ""
  · simp [ComposeTx, hhash] at hcall
  · refine ⟨hhash, ?_⟩
    cases hgh : node.GetHeaderByHeight (tx.PolyHeight + 1) with
    | error e =>
      simp [ComposeTx, hhash, hd0, hp0, hu, hgh] at hcall
    | ok hdr1 =>
      rw [ComposeTx_known_height x node tx hdr1 hhash hd0 hp0 (by omega) hgh] at hcall
      have hmem : Step.CheckEpoch hdr ∈ epochChecks
          (composeAnchor x node tx hdr1 [Step.GetHeaderByHeight (tx.PolyHeight + 1)]).steps := by
        unfold epochChecks
        exact List.mem_filter.mpr ⟨hcall, rfl⟩
      rw [composeAnchor_epochChecks x node tx hdr1 _ (by omega)] at hmem
      simp only [epochChecks, List.filter_cons_of_neg, List.filter_nil, List.nil_append,
        List.mem_singleton, Step.CheckEpoch.injEq, Bool.false_eq_true, not_false_eq_true] at hmem
      rw [hmem]

/-- Claim C4. For a record with `destChainEpochStartHeight > 0`,
`relayHeight >= destChainEpochStartHeight` and `relayHeight + 2` representable in
32 bits, when `ComposeTx` calls `CheckEpoch` on a header and gets a verdict: the
header is the one fetched at `relayHeight + 1` and `CheckEpoch` is called once;
if the verdict is unchanged, no anchor header and no Merkle proof are requested;
if it is changed, the anchor header is requested at exactly `relayHeight + 2`
and, when that header arrives, the Merkle proof for the span
`[relayHeight + 1, relayHeight + 2]`. -/
theorem ComposeTx_epoch_seen (x : Extern) (node : Node) (tx : Tx) (hdr : Header)
    (hdst : 0 < tx.DstPolyEpochStartHeight)
    (hge : tx.DstPolyEpochStartHeight ≤ tx.PolyHeight)
    (hrep : tx.PolyHeight + 2 < 2 ^ 32)
    (hcall : Step.CheckEpoch hdr ∈ (ComposeTx x node tx).steps)
    (herr : (CheckEpoch x tx hdr).err = none)
    (hfault : (CheckEpoch x tx hdr).fault = none) :
    node.GetHeaderByHeight (tx.PolyHeight + 1) = .ok hdr ∧
    epochChecks (ComposeTx x node tx).steps = [Step.CheckEpoch hdr] ∧
    ((CheckEpoch x tx hdr).epoch = false →
      (ComposeTx x node tx).anchorHeight = 0 ∧ (ComposeTx x node tx).anchor = none ∧
      (ComposeTx x node tx).hp = "" ∧
      fetches (ComposeTx x node tx).steps = [Step.GetHeaderByHeight (tx.PolyHeight + 1)]) ∧
    ((CheckEpoch x tx hdr).epoch = true →
      (ComposeTx x node tx).anchorHeight = tx.PolyHeight + 2 ∧
      fetches (ComposeTx x node tx).steps
        = [Step.GetHeaderByHeight (tx.PolyHeight + 1),
            Step.GetHeaderByHeight (tx.PolyHeight + 2)] ++
          (match node.GetHeaderByHeight (tx.PolyHeight + 2) with
            | .ok _ => [Step.GetMerkleProof (tx.PolyHeight + 1) (tx.PolyHeight + 2)]
            | .error _ => [])) :=
  have h := ComposeTx_checked_header x node tx hdr hdst hge hrep hcall
  ⟨h.2, ComposeTx_epoch_seen_of_header x node tx hdr h.1 hdst hge hrep h.2 herr hfault⟩

/-- Witness of claim C4 on the example node: relay height 80, epoch start 50 and
a changed commitment give the anchor height 82 and the proof span 81 to 82. -/
theorem ComposeTx_epoch_seen_witness :
    (CheckEpoch sampleExtern sampleTx ⟨81, List.replicate 20 1, [1], []⟩).epoch = true ∧
    (ComposeTx sampleExtern sampleNode sampleTx).anchorHeight = 82 ∧
    fetches (ComposeTx sampleExtern sampleNode sampleTx).steps
      = [Step.GetHeaderByHeight 81, Step.GetHeaderByHeight 82, Step.GetMerkleProof 81 82] :=
  ⟨by decide,
    (ComposeTx_epoch_seen sampleExtern sampleNode sampleTx ⟨81, List.replicate 20 1, [1], []⟩
      (by decide) (by decide) (by decide) (by decide) (by decide) (by decide)).2.2.2
      (by decide)⟩

theorem composeFetch_anchorHeight (x : Extern) (node : Node) (tx : Tx) (ah : Nat)
    (steps : List Step) : (composeFetch x node tx ah steps).anchorHeight = ah := by
  unfold composeFetch
  split_ifs
  · cases hgh : node.GetHeaderByHeight ah with
    | error e => rfl
    | ok a =>
      cases hmp : node.GetMerkleProof (u32 (tx.PolyHeight + 1)) ah with
      | error e => rfl
      | ok p => exact (composeValue_fields _ _ _ _ _ _ _).1
  · exact (composeValue_fields _ _ _ _ _ _ _).1

theorem composeFetch_anchor (x : Extern) (node : Node) (tx : Tx) (ah : Nat)
    (steps : List Step) (hpos : 0 < ah)
    (herr : (composeFetch x node tx ah steps).err = none) :
    ∃ a p, node.GetHeaderByHeight ah = .ok a ∧
      (composeFetch x node tx ah steps).anchor = some a ∧
      node.GetMerkleProof (u32 (tx.PolyHeight + 1)) ah = .ok p ∧
      (composeFetch x node tx ah steps).hp = p.AuditPath ∧
      Step.GetHeaderByHeight ah ∈ (composeFetch x node tx ah steps).steps ∧
      Step.GetMerkleProof (u32 (tx.PolyHeight + 1)) ah
        ∈ (composeFetch x node tx ah steps).steps := by
  unfold composeFetch at herr ⊢
  simp only [hpos, if_true] at herr ⊢
  cases hgh : node.GetHeaderByHeight ah with
  | error e => simp [hgh] at herr
  | ok a =>
    cases hmp : node.GetMerkleProof (u32 (tx.PolyHeight + 1)) ah with
    | error e => simp [hgh, hmp] at herr
    | ok p =>
      have hfields := composeValue_fields x node tx ah (some a) p.AuditPath
        (steps ++ [Step.GetHeaderByHeight ah] ++
          [Step.GetMerkleProof (u32 (tx.PolyHeight + 1)) ah])
      refine ⟨a, p, rfl, hfields.2.1, rfl, hfields.2.2.1, ?_, ?_⟩
      · rw [hfields.2.2.2]
        simp
      · rw [hfields.2.2.2]
        simp

theorem composeAnchor_anchor (x : Extern) (node : Node) (tx : Tx) (hdr : Header)
    (steps : List Step)
    (herr : (composeAnchor x node tx hdr steps).err = none)
    (hfault : (composeAnchor x node tx hdr steps).fault = none)
    (hpos : 0 < (composeAnchor x node tx hdr steps).anchorHeight) :
    ∃ a p, node.GetHeaderByHeight (composeAnchor x node tx hdr steps).anchorHeight = .ok a ∧
      (composeAnchor x node tx hdr steps).anchor = some a ∧
      node.GetMerkleProof (u32 (tx.PolyHeight + 1))
        (composeAnchor x node tx hdr steps).anchorHeight = .ok p ∧
      (composeAnchor x node tx hdr steps).hp = p.AuditPath ∧
      Step.GetHeaderByHeight (composeAnchor x node tx hdr steps).anchorHeight
        ∈ (composeAnchor x node tx hdr steps).steps ∧
      Step.GetMerkleProof (u32 (tx.PolyHeight + 1))
        (composeAnchor x node tx hdr steps).anchorHeight
        ∈ (composeAnchor x node tx hdr steps).steps := by
  unfold composeAnchor at herr hfault hpos ⊢
  by_cases hlt : tx.PolyHeight < tx.DstPolyEpochStartHeight
  · simp only [hlt, if_true] at herr hfault hpos ⊢
    rw [composeFetch_anchorHeight] at hpos ⊢
    exact composeFetch_anchor x node tx _ steps hpos herr
  · simp only [hlt, if_false] at herr hfault hpos ⊢
    cases hcf : (CheckEpoch x tx hdr).fault with
    | some f => simp [hcf] at hfault
    | none =>
      cases hce : (CheckEpoch x tx hdr).err with
      | some e => simp [hcf, hce] at herr
      | none =>
        simp only [hcf, hce] at herr hfault hpos ⊢
        rw [composeFetch_anchorHeight] at hpos ⊢
        exact composeFetch_anchor x node tx _ _ hpos herr

/-- Counterexample to claim C5 as stated: in the epoch-rollover scenario with
relay height 80 the run succeeds with the anchor height 82, not 83, the requests
being the headers 81 and 82 and the proof for the span 81 to 82; and the record
that results has no anchor header. -/
theorem ComposeTx_rollover_anchor_82 :
    (ComposeTx sampleExtern sampleNode sampleTx).err = none ∧
    (ComposeTx sampleExtern sampleNode sampleTx).fault = none ∧
    (ComposeTx sampleExtern sampleNode sampleTx).anchorHeight = 82 ∧
    fetches (ComposeTx sampleExtern sampleNode sampleTx).steps
      = [Step.GetHeaderByHeight 81, Step.GetHeaderByHeight 82, Step.GetMerkleProof 81 82] ∧
    (ComposeTx sampleExtern sampleNode sampleTx).tx.AnchorHeader = none := by
  decide

/-- Claim C5, amended. Whenever `ComposeTx` succeeds with an anchor required
(anchor height above 0), it has requested and received the header at the anchor
height, held in `anchor`, and the Merkle proof for the span from the relay
height plus one to the anchor height, whose audit path is held in `hp`. -/
theorem ComposeTx_anchor_fetched (x : Extern) (node : Node) (tx : Tx)
    (herr : (ComposeTx x node tx).err = none)
    (hfault : (ComposeTx x node tx).fault = none)
    (hpos : 0 < (ComposeTx x node tx).anchorHeight) :
    ∃ a p, node.GetHeaderByHeight (ComposeTx x node tx).anchorHeight = .ok a ∧
      (ComposeTx x node tx).anchor = some a ∧
      node.GetMerkleProof (u32 (relayHeight node tx + 1))
        (ComposeTx x node tx).anchorHeight = .ok p ∧
      (ComposeTx x node tx).hp = p.AuditPath ∧
      Step.GetHeaderByHeight (ComposeTx x node tx).anchorHeight
        ∈ (ComposeTx x node tx).steps ∧
      Step.GetMerkleProof (u32 (relayHeight node tx + 1)) (ComposeTx x node tx).anchorHeight
        ∈ (ComposeTx x node tx).steps := by
  unfold ComposeTx at herr hfault hpos ⊢
  by_cases hhash : tx.PolyHash = ""
  · simp [hhash] at hpos
  · by_cases hdst : tx.DstPolyEpochStartHeight = 0
    · simp [hhash, hdst] at hpos
    · simp only [hhash, hdst, if_false] at herr hfault hpos ⊢
      have hrh : (if tx.PolyHeight = 0 then node.GetBlockHeightByTxHash tx.PolyHash
          else (tx.PolyHeight, none)).1 = relayHeight node tx := by
        unfold relayHeight
        split_ifs <;> rfl
      cases hr2 : (if tx.PolyHeight = 0 then node.GetBlockHeightByTxHash tx.PolyHash
          else (tx.PolyHeight, none)).2 with
      | some e => simp [hr2] at herr
      | none =>
        simp only [hr2] at herr hfault hpos ⊢
        cases hgh : node.GetHeaderByHeight
            (u32 ((if tx.PolyHeight = 0 then node.GetBlockHeightByTxHash tx.PolyHash
              else (tx.PolyHeight, none)).1 + 1)) with
        | error e => simp [hgh] at herr
        | ok hdr =>
          simp only [hgh] at herr hfault hpos ⊢
          have h := composeAnchor_anchor x node _ hdr _ herr hfault hpos
          simp only [hrh] at h ⊢
          exact h

/-- Witness of claim C5 (amended) in the epoch-rollover scenario with relay height
80: the anchor height is 82 and the proof spans 81 to 82. -/
theorem ComposeTx_anchor_fetched_witness :
    (ComposeTx sampleExtern sampleNode sampleTx).anchorHeight = 82 ∧
    u32 (relayHeight sampleNode sampleTx + 1) = 81 ∧
    ∃ a p, sampleNode.GetHeaderByHeight (ComposeTx sampleExtern sampleNode sampleTx).anchorHeight
        = .ok a ∧
      (ComposeTx sampleExtern sampleNode sampleTx).anchor = some a ∧
      sampleNode.GetMerkleProof (u32 (relayHeight sampleNode sampleTx + 1))
        (ComposeTx sampleExtern sampleNode sampleTx).anchorHeight = .ok p ∧
      (ComposeTx sampleExtern sampleNode sampleTx).hp = p.AuditPath ∧
      Step.GetHeaderByHeight (ComposeTx sampleExtern sampleNode sampleTx).anchorHeight
        ∈ (ComposeTx sampleExtern sampleNode sampleTx).steps ∧
      Step.GetMerkleProof (u32 (relayHeight sampleNode sampleTx + 1))
        (ComposeTx sampleExtern sampleNode sampleTx).anchorHeight
        ∈ (ComposeTx sampleExtern sampleNode sampleTx).steps :=
  ⟨by decide, by decide,
    ComposeTx_anchor_fetched sampleExtern sampleNode sampleTx (by decide) (by decide)
      (by decide)⟩

/-! ## The proof-bearing notification -/

theorem method_makeProof_iff (states : List StateField) :
    (match states.get? 0 with
      | some (StateField.str m) => m
      | _ => "") = "makeProof" ↔ states.get? 0 = some (.str "makeProof") := by
  rcases h0 : states.get? 0 with _ | f
  · simp only [reduceCtorEq, iff_false]
    decide
  · cases f with
    | str m => simp
    | other =>
      simp only [Option.some.injEq, reduceCtorEq, iff_false]
      decide

theorem notifyLoop_passed (x : Extern) (node : Node) (height : Nat) (n : NotifyEventInfo)
    (rest : List NotifyEventInfo) (hn : PassedOver x node height n)
    (param : Option ToMerkleValue) (path : List Byte) (steps : List Step) :
    ∃ param1 path1, notifyLoop x node height (n :: rest) param path steps
      = notifyLoop x node height rest param1 path1 (steps ++ proofRequest x height n) := by
  rcases hn with hc | ⟨states, hst, hrest⟩
  · refine ⟨param, path, ?_⟩
    simp [notifyLoop, proofRequest, hc]
  · by_cases hc : n.ContractAddress = x.POLY_ENTRANCE_ADDRESS
    · rcases hrest with hlen | hm | ⟨key, proof, path1, h5, hp, hd, hdes⟩
      · refine ⟨param, path, ?_⟩
        have : ¬ 5 < states.length := by omega
        simp [notifyLoop, proofRequest, hc, hst, this]
      · refine ⟨param, path, ?_⟩
        by_cases hlen : 5 < states.length
        · have hmeth : ¬ (match states.get? 0 with
              | some (StateField.str m) => m
              | _ => "") = "makeProof" :=
            fun h => hm ((method_makeProof_iff states).mp h)
          simp only [notifyLoop, proofRequest, hc, hst, hlen, if_true, hmeth, if_false, hm,
            and_false, List.append_nil]
        · simp [notifyLoop, proofRequest, hc, hst, hlen]
      · by_cases hlen : 5 < states.length
        · by_cases hmeth : (match states.get? 0 with
              | some (StateField.str m) => m
              | _ => "") = "makeProof"
          · have h0 : states.get? 0 = some (.str "makeProof") :=
              (method_makeProof_iff states).mp hmeth
            rcases hdv : x.Deserialization (ParseAuditPath path1).value with ⟨param1, e⟩
            rw [hdv] at hdes
            cases e with
            | none => simp at hdes
            | some e =>
              refine ⟨some param1, path1, ?_⟩
              simp only [notifyLoop, proofRequest, hc, hst, hlen, if_true, hmeth, h5, hp, hd,
                hdv, h0, and_self]
          · refine ⟨param, path, ?_⟩
            have h0 : ¬ states.get? 0 = some (.str "makeProof") :=
              fun h => hmeth ((method_makeProof_iff states).mpr h)
            simp only [notifyLoop, proofRequest, hc, hst, hlen, if_true, hmeth, if_false, h0,
              and_false, List.append_nil]
        · refine ⟨param, path, ?_⟩
          simp [notifyLoop, proofRequest, hc, hst, hlen]
    · refine ⟨param, path, ?_⟩
      simp [notifyLoop, proofRequest, hc]

theorem notifyLoop_prefix (x : Extern) (node : Node) (height : Nat)
    (pre rest : List NotifyEventInfo) (hpre : ∀ m ∈ pre, PassedOver x node height m) :
    ∀ param path steps, ∃ param1 path1,
      notifyLoop x node height (pre ++ rest) param path steps
        = notifyLoop x node height rest param1 path1
            (steps ++ (pre.map (proofRequest x height)).flatten) := by
  induction pre with
  | nil => intro param path steps; exact ⟨param, path, by simp⟩
  | cons n pre ih =>
    intro param path steps
    obtain ⟨p1, pa1, h1⟩ := notifyLoop_passed x node height n (pre ++ rest)
      (hpre n (List.mem_cons_self _ _)) param path steps
    obtain ⟨p2, pa2, h2⟩ := ih (fun m hm => hpre m (List.mem_cons_of_mem _ hm)) p1 pa1
      (steps ++ proofRequest x height n)
    refine ⟨p2, pa2, ?_⟩
    rw [List.cons_append, h1, h2]
    simp [List.append_assoc]

theorem notifyLoop_qualifies (x : Extern) (node : Node) (height : Nat) (n : NotifyEventInfo)
    (post : List NotifyEventInfo) (key : String) (path : List Byte) (param : ToMerkleValue)
    (hq : Qualifies x node height n key path param)
    (param0 : Option ToMerkleValue) (path0 : List Byte) (steps : List Step) :
    notifyLoop x node height (n :: post) param0 path0 steps
      = ⟨steps ++ [Step.GetCrossStatesProof height key], some param, path, none, none⟩ := by
  obtain ⟨hc, states, proof, hst, hlen, h0, h5, hp, hd, hdes⟩ := hq
  simp only [notifyLoop, hc, hst, hlen, if_true, h0, h5, hp, hd, hdes]

/-- Counterexample to claim C10 as stated: the only notification of transaction
`bb` is a candidate whose audit-path value does not deserialize, so none
qualifies; `GetPolyParams` returns the error together with a commitment
structure that is not nil. -/
theorem GetPolyParams_error_with_param :
    (sampleExtern.Deserialization
      (ParseAuditPath (sampleExtern.DecodeString "00").1).value).2 ≠ none ∧
    (GetPolyParams sampleExtern sampleNode sampleTxBad).err
      = some "Valid ToMerkleValue not found" ∧
    (GetPolyParams sampleExtern sampleNode sampleTxBad).param = some ⟨[], 0, none⟩ := by
  decide

/-- Claim C10, amended. For a record with a non-empty relay hash and a known relay
height whose event is fetched: when the notifications before a qualifying one
are all passed over, `GetPolyParams` returns with no error the commitment
structure deserialized from that qualifying notification, and its proof requests
are those of the candidates up to and including it, none for a later
notification; and when all notifications are passed over it returns the error
`Valid ToMerkleValue not found`. -/
theorem GetPolyParams_first_match (x : Extern) (node : Node) (tx : Tx)
    (evt : SmartContactEvent)
    (hhash : tx.PolyHash ≠ "") (hheight : tx.PolyHeight ≠ 0)
    (hevt : node.GetSmartContractEvent tx.PolyHash = .ok evt) :
    (∀ pre n post key path param, evt.Notify = pre ++ n :: post →
      (∀ m ∈ pre, PassedOver x node tx.PolyHeight m) →
      Qualifies x node tx.PolyHeight n key path param →
      GetPolyParams x node tx
        = ⟨[Step.GetSmartContractEvent tx.PolyHash] ++
              (pre.map (proofRequest x tx.PolyHeight)).flatten ++
              [Step.GetCrossStatesProof tx.PolyHeight key],
            tx, some param, path, some evt, none, none⟩) ∧
    ((∀ m ∈ evt.Notify, PassedOver x node tx.PolyHeight m) →
      (GetPolyParams x node tx).err = some "Valid ToMerkleValue not found" ∧
      (GetPolyParams x node tx).fault = none ∧
      (GetPolyParams x node tx).steps
        = [Step.GetSmartContractEvent tx.PolyHash] ++
            (evt.Notify.map (proofRequest x tx.PolyHeight)).flatten) := by
  have hunf : GetPolyParams x node tx
      = ⟨(notifyLoop x node tx.PolyHeight evt.Notify none []
            [Step.GetSmartContractEvent tx.PolyHash]).steps, tx,
          (notifyLoop x node tx.PolyHeight evt.Notify none []
            [Step.GetSmartContractEvent tx.PolyHash]).param,
          (notifyLoop x node tx.PolyHeight evt.Notify none []
            [Step.GetSmartContractEvent tx.PolyHash]).path, some evt,
          (notifyLoop x node tx.PolyHeight evt.Notify none []
            [Step.GetSmartContractEvent tx.PolyHash]).err,
          (notifyLoop x node tx.PolyHeight evt.Notify none []
            [Step.GetSmartContractEvent tx.PolyHash]).fault⟩ := by
    unfold GetPolyParams
    simp only [hhash, hheight, if_false, hevt, List.nil_append]
  refine ⟨?_, ?_⟩
  · intro pre n post key path param hsplit hpre hq
    obtain ⟨p1, pa1, h1⟩ := notifyLoop_prefix x node tx.PolyHeight pre (n :: post) hpre none []
      [Step.GetSmartContractEvent tx.PolyHash]
    rw [hunf, hsplit, h1, notifyLoop_qualifies x node tx.PolyHeight n post key path param hq]
  · intro hall
    obtain ⟨p1, pa1, h1⟩ := notifyLoop_prefix x node tx.PolyHeight evt.Notify [] hall none []
      [Step.GetSmartContractEvent tx.PolyHash]
    rw [List.append_nil] at h1
    rw [hunf, h1]
    simp [notifyLoop]

/-- Witness of claim C10 (amended) on transaction `aa` of the example node: three
notifications are passed over, the fourth qualifies, and the fifth, which would
qualify too, is never consulted. -/
theorem GetPolyParams_first_match_witness :
    (GetPolyParams sampleExtern sampleNode sampleTx).param = some ⟨[170, 187], 7, none⟩ ∧
    (GetPolyParams sampleExtern sampleNode sampleTx).err = none ∧
    (GetPolyParams sampleExtern sampleNode sampleTx).steps
      = [Step.GetSmartContractEvent "aa", Step.GetCrossStatesProof 80 "00",
          Step.GetCrossStatesProof 80 "0b02aabb0700000000000000"] := by
  have h := (GetPolyParams_first_match sampleExtern sampleNode sampleTx (sampleEvent "aa")
    (by decide) (by decide) rfl).1
    [⟨"0100000000000000000000000000000000000000", .other⟩,
      ⟨"0300000000000000000000000000000000000000", .list [.str "makeProof"]⟩,
      sampleNotify "00"]
    (sampleNotify "0b02aabb0700000000000000") [sampleNotify "0b02ccdd0900000000000000"]
    "0b02aabb0700000000000000" [11, 2, 170, 187, 7, 0, 0, 0, 0, 0, 0, 0]
    ⟨[170, 187], 7, none⟩ (by decide)
    (by
      intro m hm
      simp only [List.mem_cons, List.mem_singleton, List.not_mem_nil, or_false] at hm
      rcases hm with rfl | rfl | rfl
      · exact Or.inl (by decide)
      · exact Or.inr ⟨[.str "makeProof"], rfl, Or.inl (by decide)⟩
      · exact Or.inr ⟨_, rfl, Or.inr (Or.inr ⟨"00", ⟨"00"⟩, [0], rfl, rfl, by decide,
          by decide⟩)⟩)
    ⟨by decide, _, ⟨"0b02aabb0700000000000000"⟩, rfl, by decide, rfl, rfl, rfl, by decide,
      by decide⟩
  rw [h]
  exact ⟨rfl, rfl, by decide⟩

/-! ## Configuration errors and what a failed composition leaves in the record -/

/-- Claim C11. For every record whose relay hash is empty or whose
`destChainEpochStartHeight` is zero, `ComposeTx` returns an error without any
step (no height resolution, header fetch, proof fetch or event fetch) and
leaves every field of the record unchanged. -/
theorem ComposeTx_missing_input (x : Extern) (node : Node) (tx : Tx)
    (h : tx.PolyHash = "" ∨ tx.DstPolyEpochStartHeight = 0) :
    (ComposeTx x node tx).err ≠ none ∧ (ComposeTx x node tx).fault = none ∧
    (ComposeTx x node tx).steps = [] ∧ (ComposeTx x node tx).tx = tx := by
  unfold ComposeTx
  by_cases hhash : tx.PolyHash = ""
  · simp [hhash]
  · rcases h with h | h
    · exact absurd h hhash
    · simp [hhash, h]

/-- Witness of claim C11: the example record without its relay hash, and the
example record with epoch-start height 0. -/
theorem ComposeTx_missing_input_witness :
    ((ComposeTx sampleExtern sampleNode { sampleTx with PolyHash := "" }).err ≠ none ∧
      (ComposeTx sampleExtern sampleNode { sampleTx with PolyHash := "" }).fault = none ∧
      (ComposeTx sampleExtern sampleNode { sampleTx with PolyHash := "" }).steps = [] ∧
      (ComposeTx sampleExtern sampleNode { sampleTx with PolyHash := "" }).tx
        = { sampleTx with PolyHash := "" }) ∧
    (ComposeTx sampleExtern sampleNode
      { sampleTx with DstPolyEpochStartHeight := 0 }).steps = [] :=
  ⟨ComposeTx_missing_input sampleExtern sampleNode { sampleTx with PolyHash := "" }
      (Or.inl rfl),
    (ComposeTx_missing_input sampleExtern sampleNode
      { sampleTx with DstPolyEpochStartHeight := 0 } (Or.inr rfl)).2.2.1⟩

theorem relayHeight_idem (node : Node) (tx : Tx) :
    relayHeight node { tx with PolyHeight := relayHeight node tx } = relayHeight node tx := by
  unfold relayHeight
  by_cases h0 : tx.PolyHeight = 0
  · simp only [h0, if_true]
    split_ifs <;> rfl
  · simp only [h0, if_false]

theorem GetPolyParams_tx (x : Extern) (node : Node) (tx : Tx) (hhash : tx.PolyHash ≠ "") :
    (GetPolyParams x node tx).tx = { tx with PolyHeight := relayHeight node tx } := by
  unfold GetPolyParams relayHeight
  simp only [hhash, if_false]
  by_cases h0 : tx.PolyHeight = 0
  · simp only [h0, if_true]
    repeat' split
    all_goals rfl
  · simp only [h0, if_false]
    repeat' split
    all_goals rfl

theorem composeValue_tx (x : Extern) (node : Node) (tx : Tx) (ah : Nat)
    (a : Option Header) (hp : String) (steps : List Step)
    (herr : (composeValue x node tx ah a hp steps).err ≠ none) :
    (composeValue x node tx ah a hp steps).tx = (GetPolyParams x node tx).tx := by
  unfold composeValue at herr ⊢
  simp only [] at herr ⊢
  split
  · rfl
  · split
    · rfl
    · rename_i h1 _ h2
      simp [h1, h2] at herr

theorem composeFetch_tx (x : Extern) (node : Node) (tx : Tx) (ah : Nat) (steps : List Step)
    (herr : (composeFetch x node tx ah steps).err ≠ none) :
    (composeFetch x node tx ah steps).tx = tx ∨
    (composeFetch x node tx ah steps).tx = (GetPolyParams x node tx).tx := by
  unfold composeFetch at herr ⊢
  by_cases hpos : 0 < ah
  · simp only [hpos, if_true] at herr ⊢
    cases hgh : node.GetHeaderByHeight ah with
    | error e => exact Or.inl rfl
    | ok a =>
      cases hmp : node.GetMerkleProof (u32 (tx.PolyHeight + 1)) ah with
      | error e => exact Or.inl rfl
      | ok p =>
        simp only [hgh, hmp] at herr
        exact Or.inr (composeValue_tx _ _ _ _ _ _ _ herr)
  · simp only [hpos, if_false] at herr ⊢
    exact Or.inr (composeValue_tx _ _ _ _ _ _ _ herr)

theorem composeAnchor_tx (x : Extern) (node : Node) (tx : Tx) (hdr : Header)
    (steps : List Step) (herr : (composeAnchor x node tx hdr steps).err ≠ none) :
    (composeAnchor x node tx hdr steps).tx = tx ∨
    (composeAnchor x node tx hdr steps).tx = (GetPolyParams x node tx).tx := by
  unfold composeAnchor at herr ⊢
  by_cases hlt : tx.PolyHeight < tx.DstPolyEpochStartHeight
  · simp only [hlt, if_true] at herr ⊢
    exact composeFetch_tx _ _ _ _ _ herr
  · simp only [hlt, if_false] at herr ⊢
    cases hcf : (CheckEpoch x tx hdr).fault with
    | some f => exact Or.inl rfl
    | none =>
      cases hce : (CheckEpoch x tx hdr).err with
      | some e => exact Or.inl rfl
      | none =>
        simp only [hcf, hce] at herr
        exact composeFetch_tx _ _ _ _ _ herr

/-- Counterexample to claim C12 as stated: the record has no relay height, the
node resolves the height 80 and then has no header to give; `ComposeTx` returns
the error and the record holds the relay height 80 instead of 0. -/
theorem ComposeTx_error_keeps_height :
    sampleTxUnknown.PolyHeight = 0 ∧
    (ComposeTx sampleExtern sampleNodeNoHeader sampleTxUnknown).err
      = some "header not found" ∧
    (ComposeTx sampleExtern sampleNodeNoHeader sampleTxUnknown).tx.PolyHeight = 80 ∧
    (ComposeTx sampleExtern sampleNodeNoHeader sampleTxUnknown).tx ≠ sampleTxUnknown := by
  decide

/-- Claim C12, amended. If `ComposeTx` returns an error at any sub-step, every
field of the record other than the relay height equals its value on entry, and
the relay height equals its value on entry or, when that was 0, the height the
node resolved from the relay hash; a record with a known relay height is left
unchanged. -/
theorem ComposeTx_error_record (x : Extern) (node : Node) (tx : Tx)
    (herr : (ComposeTx x node tx).err ≠ none) :
    ((ComposeTx x node tx).tx = tx ∨
      (tx.PolyHeight = 0 ∧
        (ComposeTx x node tx).tx
          = { tx with PolyHeight := (node.GetBlockHeightByTxHash tx.PolyHash).1 })) ∧
    (tx.PolyHeight ≠ 0 → (ComposeTx x node tx).tx = tx) := by
  have key : (ComposeTx x node tx).tx = tx ∨
      (ComposeTx x node tx).tx = { tx with PolyHeight := relayHeight node tx } := by
    unfold ComposeTx at herr ⊢
    by_cases hhash : tx.PolyHash = ""
    · simp [hhash]
    · by_cases hdst : tx.DstPolyEpochStartHeight = 0
      · simp [hhash, hdst]
      · simp only [hhash, hdst, if_false] at herr ⊢
        have hrh : (if tx.PolyHeight = 0 then node.GetBlockHeightByTxHash tx.PolyHash
            else (tx.PolyHeight, none)).1 = relayHeight node tx := by
          unfold relayHeight
          split_ifs <;> rfl
        rw [hrh] at herr ⊢
        cases hr2 : (if tx.PolyHeight = 0 then node.GetBlockHeightByTxHash tx.PolyHash
            else (tx.PolyHeight, none)).2 with
        | some e => exact Or.inr rfl
        | none =>
          simp only [hr2] at herr ⊢
          cases hgh : node.GetHeaderByHeight (u32 (relayHeight node tx + 1)) with
          | error e => exact Or.inr rfl
          | ok hdr =>
            simp only [hgh] at herr ⊢
            rcases composeAnchor_tx x node _ hdr _ herr with h | h
            · exact Or.inr h
            · have h1 := GetPolyParams_tx x node
                { tx with PolyHeight := relayHeight node tx } hhash
              rw [relayHeight_idem] at h1
              exact Or.inr (h.trans h1)
  have hknown : tx.PolyHeight ≠ 0 → { tx with PolyHeight := relayHeight node tx } = tx := by
    intro h0
    simp [relayHeight, h0]
  refine ⟨?_, ?_⟩
  · rcases key with h | h
    · exact Or.inl h
    · by_cases h0 : tx.PolyHeight = 0
      · refine Or.inr ⟨h0, ?_⟩
        rw [h]
        simp [relayHeight, h0]
      · exact Or.inl (h.trans (hknown h0))
  · intro h0
    rcases key with h | h
    · exact h
    · exact h.trans (hknown h0)

/-- Witness of claim C12 (amended): the run of the counterexample changes the
relay height from 0 to the resolved 80 and nothing else. -/
theorem ComposeTx_error_record_witness :
    (ComposeTx sampleExtern sampleNodeNoHeader sampleTxUnknown).tx = sampleTxUnknown ∨
    (sampleTxUnknown.PolyHeight = 0 ∧
      (ComposeTx sampleExtern sampleNodeNoHeader sampleTxUnknown).tx
        = { sampleTxUnknown with
            PolyHeight :=
              (sampleNodeNoHeader.GetBlockHeightByTxHash sampleTxUnknown.PolyHash).1 }) :=
  (ComposeTx_error_record sampleExtern sampleNodeNoHeader sampleTxUnknown (by decide)).1

/-! ## The source-chain listener -/

theorem GoError_Is_self (err : GoError) : err.Is err = true := by
  cases err <;> simp [GoError.Is]

/-- Claim C13. For every source transaction height `txHeight`, when `getProof`
calls `GetProofHeight` and that returns the confirmed height `h` with
`txHeight >= h`, `getProof` returns an error that wraps `ERR_PROOF_UNAVAILABLE`,
returns no proof bytes and sends no proof request to the source-chain node. -/
theorem getProof_unavailable (e : eth.Env) (l : eth.Listener) (txId : List Byte)
    (txHeight h : Nat)
    (hcall : eth.Call.GetProofHeight ∈ (l.getProof e txId txHeight).calls)
    (hh : l.GetProofHeight = (h, none)) (hge : txHeight ≥ h) :
    (l.getProof e txId txHeight).err
      = some (.wrap (e.ERR_PROOF_UNAVAILABLE.Error ++ " Proof not ready")
          e.ERR_PROOF_UNAVAILABLE) ∧
    (∀ err, (l.getProof e txId txHeight).err = some err →
      err.Is e.ERR_PROOF_UNAVAILABLE = true) ∧
    (l.getProof e txId txHeight).proof = [] ∧
    (l.getProof e txId txHeight).calls = [eth.Call.GetProofHeight] ∧
    (∀ addr key height, eth.Call.GetProof addr key height
      ∉ (l.getProof e txId txHeight).calls) := by
  rcases hm : e.MappingKeyAt (e.EncodeTxId txId) "01" with ⟨bytes, merr⟩
  cases merr with
  | some err => simp [eth.Listener.getProof, hm] at hcall
  | none =>
    have hres : l.getProof e txId txHeight
        = ⟨[eth.Call.GetProofHeight], h, [],
            some (.wrap (e.ERR_PROOF_UNAVAILABLE.Error ++ " Proof not ready")
              e.ERR_PROOF_UNAVAILABLE)⟩ := by
      simp only [eth.Listener.getProof, hm, hh, hge, if_true]
    rw [hres]
    refine ⟨rfl, ?_, rfl, rfl, ?_⟩
    · intro err herr
      simp only [Option.some.injEq] at herr
      rw [← herr]
      simp [GoError.Is, GoError_Is_self]
    · intro addr key height
      simp

/-- Witness of claim C13: on the example OK chain with head 100 the confirmed
height is 97, and a transaction at height 98 has no proof yet. -/
theorem getProof_unavailable_witness :
    (sampleListener 100).GetProofHeight = (97, none) ∧
    ((sampleListener 100).getProof sampleEnv [1] 98).err
      = some (.wrap (sampleEnv.ERR_PROOF_UNAVAILABLE.Error ++ " Proof not ready")
          sampleEnv.ERR_PROOF_UNAVAILABLE) ∧
    ((sampleListener 100).getProof sampleEnv [1] 98).proof = [] :=
  have h := getProof_unavailable sampleEnv (sampleListener 100) [1] 98 97
    (by decide) (by decide) (by decide)
  ⟨by decide, h.1, h.2.2.1⟩

/-- Claim C20, evaluated on the OK chain with the chain height 2: the unsigned
subtraction of the confirmation depth 3 wraps to `2^64 - 1`, a proof height above
the chain head; `getProof` then treats a transaction at height 5 as confirmed and
requests its proof at that height. -/
theorem getProofHeight_wraps :
    (sampleListener 2).getProofHeight sampleEnv = (18446744073709551615, none) ∧
    ¬ ((sampleListener 2).getProofHeight sampleEnv).1 ≤ 2 ∧
    ((sampleListener 2).getProof sampleEnv [1] 5).err = none ∧
    ((sampleListener 2).getProof sampleEnv [1] 5).calls
      = [eth.Call.GetProofHeight, eth.Call.GetProof "0xccd" "0x01" 18446744073709551615] := by
  decide

/-! ## The listeners' point lookup and block scan -/

/-- Claim C16, evaluated: for every transaction hash, `ScanTx` of the source-chain
listener and `ScanTx` of the relay-chain listener both return no record together
with no error. -/
theorem ScanTx_silent_empty (hash : String) :
    eth.Listener.ScanTx hash = (none, none) ∧ poly.Listener.ScanTx hash = (none, none) :=
  ⟨rfl, rfl⟩

/-- Claim C19, evaluated at three block-event lists, each with one notification
of the cross-chain manager `03`: an empty state list, a `makeProof` notification
with three state fields, and a `makeProof` notification whose sixth field is not
a string. On each `Scan` stops with a run-time panic. -/
theorem Scan_panics :
    (poly.Listener.Scan "03" (fun _ => .ok [⟨"aa", [⟨"03", .list []⟩]⟩]) 7).fault
      = some "index out of range [0]" ∧
    (poly.Listener.Scan "03"
      (fun _ => .ok [⟨"aa", [⟨"03", .list [.str "makeProof", .other, .other]⟩]⟩]) 7).fault
      = some "index out of range [5]" ∧
    (poly.Listener.Scan "03"
      (fun _ => .ok [⟨"aa", [⟨"03",
        .list [.str "makeProof", .other, .other, .other, .other, .other]⟩]⟩]) 7).fault
      = some "interface conversion: not string" := by
  decide

/-! ## A missing known commitment, and the lengths of a decoded path -/

/-- Claim C17. For every header, when the known keeper commitment of the record
is empty `CheckEpoch` returns an error with `epoch = false` and no key bytes,
whatever the next-keeper marker and the consensus payload are. -/
theorem CheckEpoch_no_known_commitment (x : Extern) (tx : Tx) (hdr : Header)
    (h : tx.DstPolyKeepers = []) :
    CheckEpoch x tx hdr = ⟨false, [], some "Dst chain poly keeper not provided", none⟩ := by
  simp [CheckEpoch, h]

/-- Witness of claim C17: the example record without its known commitment, on a
header with an empty next-keeper marker and an undecodable payload. -/
theorem CheckEpoch_no_known_commitment_witness :
    CheckEpoch sampleExtern { sampleTx with DstPolyKeepers := [] } ⟨81, ADDRESS_EMPTY, [], []⟩
      = ⟨false, [], some "Dst chain poly keeper not provided", none⟩ :=
  CheckEpoch_no_known_commitment sampleExtern { sampleTx with DstPolyKeepers := [] }
    ⟨81, ADDRESS_EMPTY, [], []⟩ rfl

/-- Claim C18, evaluated at the input `[0, 7]` followed by 31 bytes: an empty
value, one direction byte and 31 of the 32 bytes of its hash. `ParseAuditPath`
returns one direction byte and no hash. -/
theorem ParseAuditPath_pos_without_hash :
    (ParseAuditPath ([0, 7] ++ List.replicate 31 9)).pos.length = 1 ∧
    (ParseAuditPath ([0, 7] ++ List.replicate 31 9)).hashes.length = 0 ∧
    (ParseAuditPath ([0, 7] ++ List.replicate 31 9)).err = none := by
  decide

/-! ## The header whose signatures are converted -/

theorem makeTxLoop_converted (convert : List Byte → List Byte × Option String)
    (sigData : List (List Byte)) :
    ∀ converted sigs,
      (∃ rest, (makeTxLoop convert sigData converted sigs).1 ++ rest = converted ++ sigData) ∧
      ((makeTxLoop convert sigData converted sigs).2.2 = none →
        (makeTxLoop convert sigData converted sigs).1 = converted ++ sigData) := by
  induction sigData with
  | nil => intro converted sigs; simp [makeTxLoop]
  | cons sig rest ih =>
    intro converted sigs
    unfold makeTxLoop
    rcases hc : convert sig with ⟨s, e⟩
    cases e with
    | some e => exact ⟨⟨rest, by simp⟩, by simp⟩
    | none =>
      simp only []
      have h := ih (converted ++ [sig]) (sigs ++ s)
      simp only [List.append_assoc, List.singleton_append] at h
      exact h

/-- Counterexample to claim C14 as stated: with an anchor header present and an
empty inter-epoch proof string, `MakeTx` takes the signatures to convert from
the relay header, not from the anchor header. -/
theorem MakeTx_anchor_without_proof :
    (MakeTx (fun s => (s, none)) sampleTx (some ⟨81, [], [], [[2]]⟩)
      (some ⟨82, [], [], [[1]]⟩) "" []).sigHeader = some ⟨81, [], [], [[2]]⟩ ∧
    (MakeTx (fun s => (s, none)) sampleTx (some ⟨81, [], [], [[2]]⟩)
      (some ⟨82, [], [], [[1]]⟩) "" []).converted = [[2]] := by
  decide

/-- Claim C14, amended. For every relay header, every anchor header and every
inter-epoch proof string, `MakeTx` takes the signatures to convert from the
anchor header when the anchor header is present and the proof string is not
empty, and from the relay header otherwise (anchor absent, or proof string
empty); the signatures handed to the converter are those of that header, in
order, up to the first that fails to convert. -/
theorem MakeTx_sigHeader (convert : List Byte → List Byte × Option String) (tx : Tx)
    (header : Option Header) (a : Header) (proof : String) (raw : List Byte) :
    (proof ≠ "" → (MakeTx convert tx header (some a) proof raw).sigHeader = some a) ∧
    (MakeTx convert tx header (some a) "" raw).sigHeader = header ∧
    (MakeTx convert tx header none proof raw).sigHeader = header ∧
    (∀ anchor h, (MakeTx convert tx header anchor proof raw).sigHeader = some h →
      (∃ rest, (MakeTx convert tx header anchor proof raw).converted ++ rest = h.SigData) ∧
      ((MakeTx convert tx header anchor proof raw).err = none →
        (MakeTx convert tx header anchor proof raw).converted = h.SigData)) := by
  refine ⟨?_, ?_, ?_, ?_⟩
  · intro hp
    simp [MakeTx, hp]
  · unfold MakeTx
    simp only [ne_eq, not_true_eq_false, and_false, if_false]
    cases header <;> rfl
  · unfold MakeTx
    simp only [ne_eq, not_true_eq_false, false_and, if_false]
    cases header <;> rfl
  · intro anchor h hsig
    unfold MakeTx at hsig ⊢
    simp only [] at hsig ⊢
    cases hs : (if anchor ≠ none ∧ proof ≠ "" then anchor else header) with
    | none => simp [hs] at hsig
    | some h1 =>
      simp only [hs] at hsig ⊢
      have hh : h1 = h := by simpa using hsig
      subst hh
      have hl := makeTxLoop_converted convert h1.SigData [] []
      simpa using hl

/-! ## Order-independence of the commitment -/

theorem keyCode_injective : ∀ a b, keyCode a = keyCode b → a = b := by
  intro a b h
  cases a with
  | ec t =>
    cases b with
    | ec u =>
      obtain ⟨ta, tn, tx, ty⟩ := t
      obtain ⟨ua, un, ux, uy⟩ := u
      simp only [keyCode, List.cons_append, List.nil_append, List.cons.injEq, true_and] at h
      obtain ⟨h1, h2, h3, h4⟩ := h
      have hx : tx = ux := Encodable.encode_injective h2
      have hy : ty = uy := Encodable.encode_injective h3
      have hn : tn.data = un.data :=
        List.map_injective_iff.mpr
          (fun c d hcd => by rw [← Char.ofNat_toNat c, ← Char.ofNat_toNat d, hcd]) h4
      have hn2 : tn = un := String.ext hn
      subst h1 hx hy hn2
      rfl
    | ed25519 u => simp [keyCode] at h
    | other => simp [keyCode] at h
  | ed25519 t =>
    cases b with
    | ec u => simp [keyCode] at h
    | ed25519 u =>
      simp only [keyCode, List.cons.injEq, true_and] at h
      have : t = u := List.map_injective_iff.mpr Fin.val_injective h
      rw [this]
    | other => simp [keyCode] at h
  | other =>
    cases b with
    | ec u => simp [keyCode] at h
    | ed25519 u => simp [keyCode] at h
    | other => rfl

theorem keyLe_antisymm (a b : PublicKey) (hab : keyLe a b) (hba : keyLe b a) : a = b :=
  keyCode_injective a b (le_antisymm hab hba)

theorem insertionSort_keyLe_sorted (l : List PublicKey) :
    (List.insertionSort keyLe l).Sorted keyLe := by
  haveI : IsTotal PublicKey keyLe := ⟨fun a b => le_total (keyCode a) (keyCode b)⟩
  haveI : IsTrans PublicKey keyLe :=
    ⟨fun a b c hab hbc => le_trans (α := List Nat) hab hbc⟩
  exact List.sorted_insertionSort keyLe l

/-- Claim C15. Commitment determinism: for two headers with the same next-keeper
marker whose consensus payloads decode to peer key lists that are permutations
of one another, and the same record (so the same known commitment), `CheckEpoch`
sorts both lists to the same list, computes the same candidate commitment and
returns the same results: the same epoch verdict and the same native key bytes.
(The sort returns its input sorted by an antisymmetric order.) -/
theorem CheckEpoch_permutation (x : Extern) (tx : Tx) (hdr1 hdr2 : Header)
    (info1 info2 : VbftBlockInfo) (cfg1 cfg2 : ChainConfig)
    (r : PublicKey → PublicKey → Prop)
    (hanti : ∀ a b, r a b → r b a → a = b)
    (hperm : ∀ l, (x.SortPublicKeys l).Perm l)
    (hsorted : ∀ l, (x.SortPublicKeys l).Sorted r)
    (hmark : hdr1.NextBookkeeper = hdr2.NextBookkeeper)
    (hinfo1 : x.Unmarshal hdr1.ConsensusPayload = .ok info1)
    (hcfg1 : info1.NewChainConfig = some cfg1)
    (hinfo2 : x.Unmarshal hdr2.ConsensusPayload = .ok info2)
    (hcfg2 : info2.NewChainConfig = some cfg2)
    (hkeys : (peerKeys x cfg1.Peers).Perm (peerKeys x cfg2.Peers)) :
    x.SortPublicKeys (peerKeys x cfg1.Peers) = x.SortPublicKeys (peerKeys x cfg2.Peers) ∧
    commitment x (x.SortPublicKeys (peerKeys x cfg1.Peers))
      = commitment x (x.SortPublicKeys (peerKeys x cfg2.Peers)) ∧
    CheckEpoch x tx hdr1 = CheckEpoch x tx hdr2 := by
  haveI : IsAntisymm PublicKey r := ⟨hanti⟩
  have hs : x.SortPublicKeys (peerKeys x cfg1.Peers)
      = x.SortPublicKeys (peerKeys x cfg2.Peers) :=
    List.eq_of_perm_of_sorted (((hperm _).trans hkeys).trans (hperm _).symm)
      (hsorted _) (hsorted _)
  refine ⟨hs, by rw [hs], ?_⟩
  unfold CheckEpoch
  simp only [hmark, hinfo1, hinfo2, hcfg1, hcfg2, hs]

/-- Witness of claim C15 on the example instance with the canonical sort: the
payloads `[1]` and `[4]` list the same two keys in opposite orders. -/
theorem CheckEpoch_permutation_witness :
    (peerKeys canonExtern [⟨1, "0107"⟩, ⟨2, "0103"⟩]).Perm
      (peerKeys canonExtern [⟨2, "0103"⟩, ⟨1, "0107"⟩]) ∧
    CheckEpoch canonExtern sampleTx ⟨81, List.replicate 20 1, [1], []⟩
      = CheckEpoch canonExtern sampleTx ⟨81, List.replicate 20 1, [4], []⟩ :=
  have hk : (peerKeys canonExtern [⟨1, "0107"⟩, ⟨2, "0103"⟩]).Perm
      (peerKeys canonExtern [⟨2, "0103"⟩, ⟨1, "0107"⟩]) := by
    have h1 : peerKeys canonExtern [⟨1, "0107"⟩, ⟨2, "0103"⟩]
        = [.ec ⟨ECDSA, "secp256k1", 7, 1⟩, .ec ⟨ECDSA, "secp256k1", 3, 1⟩] := by decide
    have h2 : peerKeys canonExtern [⟨2, "0103"⟩, ⟨1, "0107"⟩]
        = [.ec ⟨ECDSA, "secp256k1", 3, 1⟩, .ec ⟨ECDSA, "secp256k1", 7, 1⟩] := by decide
    rw [h1, h2]
    exact List.Perm.swap _ _ _
  ⟨hk,
    (CheckEpoch_permutation canonExtern sampleTx ⟨81, List.replicate 20 1, [1], []⟩
      ⟨81, List.replicate 20 1, [4], []⟩
      ⟨some ⟨[⟨1, "0107"⟩, ⟨2, "0103"⟩]⟩⟩ ⟨some ⟨[⟨2, "0103"⟩, ⟨1, "0107"⟩]⟩⟩
      ⟨[⟨1, "0107"⟩, ⟨2, "0103"⟩]⟩ ⟨[⟨2, "0103"⟩, ⟨1, "0107"⟩]⟩
      keyLe keyLe_antisymm (fun l => List.perm_insertionSort keyLe l)
      insertionSort_keyLe_sorted rfl rfl rfl rfl rfl hk).2.2⟩

end PolyRelayer
